import Mathlib

/-!
# go-test-pgssi: barrier-synchronised serializable-isolation scenarios

A shallow embedding of the Go program (`txm/transaction.go`, `pattern/base.go`,
`pattern/dirtyread.go`, `pattern/phantomread.go`, `pattern/writeskew.go`,
`main.go`).

* Every Go function becomes a computation in `Go`, which returns the function's
  result together with the sequence of observable operations (`Event`) the
  function performs, in program order: store calls with the error they
  returned, channel operations, `go` statements, log lines, panics.
* The outcomes of the external store (`database/sql`) are inputs: a `Driver`
  fixes what every `sql.Open`, `Begin`, statement, `Commit` and `Rollback`
  returns, so that "every combination of store outcomes" is a universal
  quantification over drivers.
* Goroutines are interleaved by a step function on a system state (`Sys`) that
  implements the blocking rules of Go channels (unbuffered rendezvous, buffered
  send and receive, receive on a closed channel).
-/

set_option linter.constructorNameAsVariable false

namespace PgSSI

/-! ## Errors -/

/-- Go `error` values that are not nil. `withStack` is the wrapper that
`errors.WithStack` of `github.com/pkg/errors` allocates around its argument. -/
inductive GoError where
  | base (msg : String)
  | withStack (cause : GoError)
  deriving DecidableEq, Repr

/-- The `Error()` method: the wrapper of `errors.WithStack` reports the message
of the error it wraps. -/
def GoError.Error : GoError → String
  | .base msg => msg
  | .withStack cause => cause.Error

/-- The function `errors.WithStack`: nil for nil, otherwise a new error value
wrapping `err` (it records the call stack and nothing else). -/
def errors.WithStack : Option GoError → Option GoError
  | none => none
  | some err => some (.withStack err)

/-! ## Channels, goroutines, events -/

/-- The channels of one scenario run: the six made by `NewPatternBase`
(`make(chan struct{})`, unbuffered) and the one made by `invoke`
(`make(chan struct{}, 2)`). -/
inductive Chan where
  | looserReady
  | winnerReady
  | proceedSignal
  | looserWriteDone
  | winnerWriteDone
  | commitSignal
  | done
  deriving DecidableEq, Repr

/-- Capacity of each channel, as given to `make`. -/
def Chan.cap : Chan → Nat
  | .done => 2
  | _ => 0

/-- The goroutines of one scenario run: the one that runs `invoke` and
`PatternBase.Do`, and the two started by the `go` statements of `Do`. -/
inductive Tid where
  | main
  | looser
  | winner
  deriving DecidableEq, Repr

/-- The three `*sql.DB` variables of the program: `db` of `invoke`, `db1` and
`db2` of `PatternBase.Do`. -/
inductive DBId where
  | db
  | db1
  | db2
  deriving DecidableEq, Repr

/-- One observable operation of a goroutine. Store calls carry the error they
returned (`none` is nil). -/
inductive Event where
  | sqlOpen (h : DBId) (err : Option GoError)
  | dbClose (h : DBId)
  | dbExec (stmt : String) (err : Option GoError)
  | begin (err : Option GoError)
  | exec (stmt : String) (args : List String) (err : Option GoError)
  | queryRow (stmt : String) (err : Option GoError)
  | commit (err : Option GoError)
  | rollback (err : Option GoError)
  | make (c : Chan)
  | send (c : Chan)
  | recv (c : Chan)
  | close (c : Chan)
  | go (t : Tid)
  | log (format : String) (args : List String)
  | panic (format : String) (args : List String)
  | ret (fn : String)
  deriving DecidableEq, Repr

/-! ## The store, as a script of outcomes -/

/-- A `*sql.Tx`: what the store answers on this transaction. `stmt k` is the
error returned by the `k`-th statement issued by the goroutine that owns the
transaction (`Exec`, or `QueryRow` followed by `Scan`), `scan k` the value that
statement scans when it is a query. -/
structure Tx where
  stmt : Nat → Option GoError
  scan : Nat → String
  commit : Option GoError
  rollback : Option GoError

/-- A `*sql.DB`: `begin` is what `db.Begin()` returns, `exec k` the error of
the `k`-th `db.Exec` of the goroutine using the handle. -/
structure DB where
  begin : Except GoError Tx
  exec : Nat → Option GoError

/-- The package-level `sql.Open("postgres", ...)`: what it returns for each of
the three handles the program opens. -/
structure Driver where
  sqlOpen : DBId → Except GoError DB

/-! ## The `Go` computation type -/

/-- How a call ends: it returns a value, or it panics. -/
inductive Res (α : Type) where
  | val (a : α)
  | panicked
  deriving DecidableEq, Repr

/-- What running a piece of Go code yields: how it ended, the operations it
performed in order, the number of statements its goroutine has issued so far,
and the goroutines it started with the operations each of them performs. -/
structure Out (α : Type) where
  res : Res α
  events : List Event
  calls : Nat
  spawned : List (Tid × List Event)

/-- A Go computation, run from the number of statements already issued by the
goroutine. -/
def Go (α : Type) : Type := Nat → Out α

/-- The outcome `o` of a continuation, seen from the start of the code that
ran before it: `es` and `sp` are the operations performed and the goroutines
started before the continuation ran. -/
def Out.after {β : Type} (es : List Event) (sp : List (Tid × List Event)) (o : Out β) : Out β :=
  ⟨o.res, es ++ o.events, o.calls, sp ++ o.spawned⟩

/-- Sequential composition: a panic ends the computation. -/
def Go.bind {α β : Type} (x : Go α) (f : α → Go β) : Go β := fun n =>
  match (x n).res with
  | .panicked => ⟨.panicked, (x n).events, (x n).calls, (x n).spawned⟩
  | .val a => (f a (x n).calls).after (x n).events (x n).spawned

/-- A computation that returns `a` and does nothing. -/
def Go.pure {α : Type} (a : α) : Go α := fun n => ⟨.val a, [], n, []⟩

instance : Monad Go where
  pure := Go.pure
  bind := Go.bind

/-- A single operation that neither blocks on the store script nor fails. -/
def emit (e : Event) : Go Unit := fun n => ⟨.val (), [e], n, []⟩

/-- The calls `log.Printf(format, args...)`. -/
def log.Printf (format : String) (args : List String) : Go Unit :=
  emit (.log format args)

/-- The calls `log.Println(line)`. -/
def log.Println (line : String) : Go Unit :=
  emit (.log line [])

/-- The call `log.Panicf(format, args...)`: logs and panics. -/
def log.Panicf (format : String) (args : List String) : Go Unit := fun n =>
  ⟨.panicked, [.panic format args], n, []⟩

/-- The send statement `c <- struct{}{}`. -/
def chanSend (c : Chan) : Go Unit := emit (.send c)

/-- The receive statement `<-c`. -/
def chanRecv (c : Chan) : Go Unit := emit (.recv c)

/-- The call `close(c)`. -/
def chanClose (c : Chan) : Go Unit := emit (.close c)

/-- The statement `go func() { body }()` starting goroutine `t`. -/
def goStmt (t : Tid) (body : Go Unit) : Go Unit := fun n =>
  ⟨.val (), [.go t], n, [(t, (body 0).events)]⟩

/-- The call `sql.Open("postgres", connectionString)` assigned to handle `h`. -/
def sql.Open (pg : Driver) (h : DBId) (_connectionString : String) :
    Go (Except GoError DB) := fun n =>
  ⟨.val (pg.sqlOpen h), [.sqlOpen h (match pg.sqlOpen h with | .error e => some e | .ok _ => none)],
    n, []⟩

/-- The call `db.Close()` on handle `h`. -/
def DB.Close (_db : DB) (h : DBId) : Go Unit := emit (.dbClose h)

/-- The call `db.Exec(stmt)`. -/
def DB.Exec (db : DB) (stmt : String) : Go (Option GoError) := fun n =>
  ⟨.val (db.exec n), [.dbExec stmt (db.exec n)], n + 1, []⟩

/-- The call `db.Begin()`. -/
def DB.Begin (db : DB) : Go (Except GoError Tx) := fun n =>
  ⟨.val db.begin, [.begin (match db.begin with | .error e => some e | .ok _ => none)], n, []⟩

/-- The call `tx.Exec(stmt, args...)`. -/
def Tx.Exec (tx : Tx) (stmt : String) (args : List String) : Go (Option GoError) := fun n =>
  ⟨.val (tx.stmt n), [.exec stmt args (tx.stmt n)], n + 1, []⟩

/-- The call `tx.QueryRow(stmt).Scan(&v)`: the scanned value and the error. -/
def Tx.QueryRowScan (tx : Tx) (stmt : String) : Go (String × Option GoError) := fun n =>
  ⟨.val (tx.scan n, tx.stmt n), [.queryRow stmt (tx.stmt n)], n + 1, []⟩

/-- The call `tx.Commit()`. -/
def Tx.Commit (tx : Tx) : Go (Option GoError) := fun n =>
  ⟨.val tx.commit, [.commit tx.commit], n, []⟩

/-- The call `tx.Rollback()`. -/
def Tx.Rollback (tx : Tx) : Go (Option GoError) := fun n =>
  ⟨.val tx.rollback, [.rollback tx.rollback], n, []⟩

/-! ## `txm/transaction.go` -/

/-- The statement the serializable runner executes right after `Begin`. -/
def setIsolationLevel : String := "SET TRANSACTION ISOLATION LEVEL SERIALIZABLE;"

/-- The function `txm.Transaction`. -/
def Transaction (db : DB) (patternName executorName : String)
    (fn : Tx → Go (Option GoError)) : Go (Option GoError) := do
  match ← db.Begin with
  | .error err =>
    log.Printf "[%s:%s] Failed to begin transaction: %v" [patternName, executorName, err.Error]
    return errors.WithStack (some err)
  | .ok tx =>
    match ← fn tx with
    | some err =>
      match ← tx.Rollback with
      | some rollbackErr =>
        log.Printf "[%s:%s] Failed to rollback transaction: %v"
          [patternName, executorName, rollbackErr.Error]
      | none => pure ()
      log.Printf "[%s:%s] Transaction function returned error: %v"
        [patternName, executorName, err.Error]
      return errors.WithStack (some err)
    | none =>
      match ← tx.Commit with
      | some err =>
        log.Printf "[%s:%s] Failed to commit transaction: %v"
          [patternName, executorName, err.Error]
        return errors.WithStack (some err)
      | none => return none

/-- The function `txm.TransactionWithSerializable`. The `return` that follows
`log.Panicf` in the source is never reached. -/
def TransactionWithSerializable (db : DB) (patternName executorName : String)
    (fn : Tx → Go (Option GoError)) : Go (Option GoError) := do
  match ← db.Begin with
  | .error err =>
    log.Printf "[%s:%s] Failed to begin transaction: %v" [patternName, executorName, err.Error]
    return errors.WithStack (some err)
  | .ok tx =>
    match ← tx.Exec setIsolationLevel [] with
    | some err =>
      match ← tx.Rollback with
      | some rollbackErr =>
        log.Printf "[%s:%s] Failed to rollback transaction: %v"
          [patternName, executorName, rollbackErr.Error]
      | none => pure ()
      log.Panicf "[%s:%s] Failed to set transaction isolation level: %v"
        [patternName, executorName, err.Error]
      return errors.WithStack (some err)
    | none =>
      match ← fn tx with
      | some err =>
        match ← tx.Rollback with
        | some rollbackErr =>
          log.Printf "[%s:%s] Failed to rollback transaction: %v"
            [patternName, executorName, rollbackErr.Error]
        | none => pure ()
        log.Printf "[%s:%s] Transaction function returned error: %v"
          [patternName, executorName, err.Error]
        return errors.WithStack (some err)
      | none =>
        match ← tx.Commit with
        | some err =>
          log.Printf "[%s:%s] Failed to commit transaction: %v"
            [patternName, executorName, err.Error]
          return errors.WithStack (some err)
        | none => return none

/-! ## `pattern/base.go` -/

/-- The struct `PatternBase`. -/
structure PatternBase where
  connectionString : String
  patternName : String
  looserReady : Chan
  winnerReady : Chan
  proceedSignal : Chan
  looserWriteDone : Chan
  winnerWriteDone : Chan
  commitSignal : Chan

/-- The function `NewPatternBase`: each field gets the channel its own `make`
creates. -/
def NewPatternBase (connectionString patternName : String) : PatternBase :=
  { connectionString := connectionString
    patternName := patternName
    looserReady := .looserReady
    winnerReady := .winnerReady
    proceedSignal := .proceedSignal
    looserWriteDone := .looserWriteDone
    winnerWriteDone := .winnerWriteDone
    commitSignal := .commitSignal }

/-- The body of the first `go` statement of `PatternBase.Do`. -/
def PatternBase.looserGoroutine (b : PatternBase) (db1 : DB) (done : Chan)
    (looserFn : Tx → Chan → Go (Option GoError)) : Go Unit := do
  log.Println "Looser: Starting..."
  match ← TransactionWithSerializable db1 b.patternName "Looser" (fun tx => looserFn tx done) with
  | some err => log.Printf "**** Looser %s failed: %v" [b.patternName, err.Error]
  | none => pure ()

/-- The body of the second `go` statement of `PatternBase.Do`. -/
def PatternBase.winnerGoroutine (b : PatternBase) (db2 : DB) (done : Chan)
    (winnerFn : Tx → Chan → Go (Option GoError)) : Go Unit := do
  log.Println "Winner: Starting..."
  match ← TransactionWithSerializable db2 b.patternName "Winner" (fun tx => winnerFn tx done) with
  | some err => log.Printf "**** Winner %s failed: %v" [b.patternName, err.Error]
  | none => pure ()

/-- The method `PatternBase.Do`. The deferred `db1.Close()` and `db2.Close()`
run where the function returns, last deferred first; `ret "Do"` marks the
return to the caller. -/
def PatternBase.Do (pg : Driver) (b : PatternBase) (_db : DB) (done : Chan)
    (looserFn winnerFn : Tx → Chan → Go (Option GoError)) : Go Unit := do
  log.Println "Orchestrator: Starting looser & winner..."
  match ← sql.Open pg .db1 b.connectionString with
  | .error err =>
    log.Printf "**** Failed to create db1 connection: %v" [err.Error]
    chanSend done
    chanSend done
    emit (.ret "Do")
  | .ok db1 =>
    match ← sql.Open pg .db2 b.connectionString with
    | .error err =>
      log.Printf "**** Failed to create db2 connection: %v" [err.Error]
      chanSend done
      chanSend done
      db1.Close .db1
      emit (.ret "Do")
    | .ok db2 =>
      goStmt .looser (b.looserGoroutine db1 done looserFn)
      goStmt .winner (b.winnerGoroutine db2 done winnerFn)
      log.Println "Orchestrator: Waiting for looser ready signal..."
      chanRecv b.looserReady
      log.Println "Orchestrator: Waiting for winner ready signal..."
      chanRecv b.winnerReady
      log.Println "Orchestrator: Both ready, closing proceed signal..."
      chanClose b.proceedSignal
      log.Println "Orchestrator: Proceed signal closed"
      log.Println "Orchestrator: Waiting for looser write done signal..."
      chanRecv b.looserWriteDone
      log.Println "Orchestrator: Waiting for winner write done signal..."
      chanRecv b.winnerWriteDone
      log.Println "Orchestrator: Both writes done, closing commit signal..."
      chanClose b.commitSignal
      log.Println "Orchestrator: Commit signal closed"
      db2.Close .db2
      db1.Close .db1
      emit (.ret "Do")

/-! ## `pattern/dirtyread.go` -/

/-- The struct `DirtyRead`, which embeds `PatternBase`. -/
structure DirtyRead extends PatternBase

/-- The function `NewDirtyRead`. -/
def NewDirtyRead (connectionString : String) : DirtyRead :=
  { toPatternBase := NewPatternBase connectionString "DirtyRead" }

/-- The method `DirtyRead.Looser`. -/
def DirtyRead.Looser (d : DirtyRead) (tx : Tx) (done : Chan) : Go (Option GoError) := do
  log.Println "Looser: Starting serializable transaction..."
  let (aliceName, err) ← tx.QueryRowScan "SELECT name FROM test WHERE name = 'Alice'"
  match err with
  | some err =>
    log.Printf "**** Looser: Failed to read Alice: %v" [err.Error]
    chanSend done
    return some err
  | none =>
    let (bobName, err) ← tx.QueryRowScan "SELECT name FROM test WHERE name = 'Bob'"
    match err with
    | some err =>
      log.Printf "**** Looser: Failed to read Bob: %v" [err.Error]
      chanSend done
      return some err
    | none =>
      log.Printf "Looser: Read Alice = %s, Bob = %s" [aliceName, bobName]
      log.Println "Looser: About to send ready signal..."
      chanSend d.looserReady
      log.Println "Looser: About to wait for proceed signal..."
      chanRecv d.proceedSignal
      log.Println "Looser: Attempting to update Alice..."
      match ← tx.Exec "UPDATE test SET name = 'Alice_saw_' || $1 WHERE name = 'Alice'" [bobName] with
      | some err =>
        log.Printf "**** Looser: Update failed: %v" [err.Error]
        chanSend done
        return some err
      | none =>
        log.Printf "Looser: Updated Alice to Alice_saw_%s" [bobName]
        log.Println "Looser: About to send write done signal..."
        chanSend d.looserWriteDone
        log.Println "Looser: About to wait for commit signal..."
        chanRecv d.commitSignal
        log.Println "Looser: Attempting to commit..."
        log.Println "Looser: About to send done signal..."
        chanSend done
        return none

/-- The method `DirtyRead.Winner`. -/
def DirtyRead.Winner (d : DirtyRead) (tx : Tx) (done : Chan) : Go (Option GoError) := do
  log.Println "Winner: Starting serializable transaction..."
  let (aliceName, err) ← tx.QueryRowScan "SELECT name FROM test WHERE name = 'Alice'"
  match err with
  | some err =>
    log.Printf "**** Winner: Failed to read Alice: %v" [err.Error]
    chanSend done
    return some err
  | none =>
    let (bobName, err) ← tx.QueryRowScan "SELECT name FROM test WHERE name = 'Bob'"
    match err with
    | some err =>
      log.Printf "**** Winner: Failed to read Bob: %v" [err.Error]
      chanSend done
      return some err
    | none =>
      log.Printf "Winner: Read Alice = %s, Bob = %s" [aliceName, bobName]
      log.Println "Winner: About to send ready signal..."
      chanSend d.winnerReady
      log.Println "Winner: About to wait for proceed signal..."
      chanRecv d.proceedSignal
      log.Println "Winner: Attempting to update Bob..."
      match ← tx.Exec "UPDATE test SET name = 'Bob_saw_' || $1 WHERE name = 'Bob'" [aliceName] with
      | some err =>
        log.Printf "**** Winner: Update failed: %v" [err.Error]
        chanSend done
        return some err
      | none =>
        log.Printf "Winner: Updated Bob to Bob_saw_%s" [aliceName]
        log.Println "Winner: About to send write done signal..."
        chanSend d.winnerWriteDone
        log.Println "Winner: About to wait for commit signal..."
        chanRecv d.commitSignal
        log.Println "Winner: Attempting to commit..."
        log.Println "Winner: About to send done signal..."
        chanSend done
        return none

/-- The method `DirtyRead.Do`. -/
def DirtyRead.Do (pg : Driver) (d : DirtyRead) (db : DB) (done : Chan) : Go Unit :=
  d.toPatternBase.Do pg db done d.Looser d.Winner

/-! ## `pattern/phantomread.go` -/

/-- The struct `PhantomRead`, which embeds `PatternBase`. -/
structure PhantomRead extends PatternBase

/-- The function `NewPhantomRead`. -/
def NewPhantomRead (connectionString : String) : PhantomRead :=
  { toPatternBase := NewPatternBase connectionString "PhantomRead" }

/-- The range query both roles of `PhantomRead` issue twice. -/
def countAM : String := "SELECT COUNT(*) FROM test WHERE name >= 'A' AND name <= 'M'"

/-- The method `PhantomRead.Looser`. -/
def PhantomRead.Looser (p : PhantomRead) (tx : Tx) (done : Chan) : Go (Option GoError) := do
  log.Println "Looser: Starting transaction..."
  let (count1, err) ← tx.QueryRowScan countAM
  match err with
  | some err =>
    log.Printf "**** Looser: Failed to read count1: %v" [err.Error]
    chanSend done
    return some err
  | none =>
    log.Printf "Looser: Count A-M = %d" [count1]
    log.Println "Looser: About to send ready signal..."
    chanSend p.looserReady
    log.Println "Looser: About to wait for proceed signal..."
    chanRecv p.proceedSignal
    match ← tx.Exec "INSERT INTO test (name) VALUES ('Charlie')" [] with
    | some err =>
      log.Printf "**** Looser: Insert failed: %v" [err.Error]
      chanSend done
      return some err
    | none =>
      log.Println "Looser: Inserted Charlie successfully"
      let (count2, err) ← tx.QueryRowScan countAM
      match err with
      | some err =>
        log.Printf "**** Looser: Failed to read count2: %v" [err.Error]
        chanSend done
        return some err
      | none =>
        log.Printf "Looser: New count A-M = %d" [count2]
        log.Println "Looser: About to send write done signal..."
        chanSend p.looserWriteDone
        log.Println "Looser: About to wait for commit signal..."
        chanRecv p.commitSignal
        log.Println "Looser: Attempting to commit..."
        log.Println "Looser: About to send done signal..."
        chanSend done
        return none

/-- The method `PhantomRead.Winner`. -/
def PhantomRead.Winner (p : PhantomRead) (tx : Tx) (done : Chan) : Go (Option GoError) := do
  log.Println "Winner: Starting transaction..."
  let (count1, err) ← tx.QueryRowScan countAM
  match err with
  | some err =>
    log.Printf "**** Winner: Failed to read count1: %v" [err.Error]
    chanSend done
    return some err
  | none =>
    log.Printf "Winner: Count A-M = %d" [count1]
    log.Println "Winner: About to send ready signal..."
    chanSend p.winnerReady
    log.Println "Winner: About to wait for proceed signal..."
    chanRecv p.proceedSignal
    match ← tx.Exec "INSERT INTO test (name) VALUES ('Diana')" [] with
    | some err =>
      log.Printf "**** Winner: Insert failed: %v" [err.Error]
      chanSend done
      return some err
    | none =>
      log.Println "Winner: Inserted Diana successfully"
      let (count2, err) ← tx.QueryRowScan countAM
      match err with
      | some err =>
        log.Printf "**** Winner: Failed to read count2: %v" [err.Error]
        chanSend done
        return some err
      | none =>
        log.Printf "Winner: New count A-M = %d" [count2]
        log.Println "Winner: About to send write done signal..."
        chanSend p.winnerWriteDone
        log.Println "Winner: About to wait for commit signal..."
        chanRecv p.commitSignal
        log.Println "Winner: Attempting to commit..."
        log.Println "Winner: About to send done signal..."
        chanSend done
        return none

/-- The method `PhantomRead.Do`. -/
def PhantomRead.Do (pg : Driver) (p : PhantomRead) (db : DB) (done : Chan) : Go Unit :=
  p.toPatternBase.Do pg db done p.Looser p.Winner

/-! ## `pattern/writeskew.go` -/

/-- The struct `WriteSkew`, which embeds `PatternBase`. -/
structure WriteSkew extends PatternBase

/-- The function `NewWriteSkew`. -/
def NewWriteSkew (connectionString : String) : WriteSkew :=
  { toPatternBase := NewPatternBase connectionString "WriteSkew" }

/-- The method `WriteSkew.Looser`. -/
def WriteSkew.Looser (w : WriteSkew) (tx : Tx) (done : Chan) : Go (Option GoError) := do
  log.Println "Looser: Starting transaction..."
  let (aliceName, err) ← tx.QueryRowScan "SELECT name FROM test WHERE name = 'Alice'"
  match err with
  | some err =>
    log.Printf "**** Looser: Failed to read Alice: %v" [err.Error]
    chanSend done
    return some err
  | none =>
    let (bobName, err) ← tx.QueryRowScan "SELECT name FROM test WHERE name = 'Bob'"
    match err with
    | some err =>
      log.Printf "**** Looser: Failed to read Bob: %v" [err.Error]
      chanSend done
      return some err
    | none =>
      log.Printf "Looser: Read Alice=%s, Bob=%s" [aliceName, bobName]
      log.Println "Looser: About to send ready signal..."
      chanSend w.looserReady
      log.Println "Looser: About to wait for proceed signal..."
      chanRecv w.proceedSignal
      let newAliceName := "Alice_saw_" ++ bobName
      match ← tx.Exec "UPDATE test SET name = $1 WHERE name = 'Alice'" [newAliceName] with
      | some err =>
        log.Printf "**** Looser: Update failed: %v" [err.Error]
        chanSend done
        return some err
      | none =>
        log.Printf "Looser: Updated Alice to %s" [newAliceName]
        log.Println "Looser: About to send write done signal..."
        chanSend w.looserWriteDone
        log.Println "Looser: About to wait for commit signal..."
        chanRecv w.commitSignal
        log.Println "Looser: Attempting to commit..."
        log.Println "Looser: About to send done signal..."
        chanSend done
        return none

/-- The method `WriteSkew.Winner`. -/
def WriteSkew.Winner (w : WriteSkew) (tx : Tx) (done : Chan) : Go (Option GoError) := do
  log.Println "Winner: Starting transaction..."
  let (aliceName, err) ← tx.QueryRowScan "SELECT name FROM test WHERE name = 'Alice'"
  match err with
  | some err =>
    log.Printf "**** Winner: Failed to read Alice: %v" [err.Error]
    chanSend done
    return some err
  | none =>
    let (bobName, err) ← tx.QueryRowScan "SELECT name FROM test WHERE name = 'Bob'"
    match err with
    | some err =>
      log.Printf "**** Winner: Failed to read Bob: %v" [err.Error]
      chanSend done
      return some err
    | none =>
      log.Printf "Winner: Read Alice=%s, Bob=%s" [aliceName, bobName]
      log.Println "Winner: About to send ready signal..."
      chanSend w.winnerReady
      log.Println "Winner: About to wait for proceed signal..."
      chanRecv w.proceedSignal
      let newBobName := "Bob_saw_" ++ aliceName
      match ← tx.Exec "UPDATE test SET name = $1 WHERE name = 'Bob'" [newBobName] with
      | some err =>
        log.Printf "**** Winner: Update failed: %v" [err.Error]
        chanSend done
        return some err
      | none =>
        log.Printf "Winner: Updated Bob to %s" [newBobName]
        log.Println "Winner: About to send write done signal..."
        chanSend w.winnerWriteDone
        log.Println "Winner: About to wait for commit signal..."
        chanRecv w.commitSignal
        log.Println "Winner: Attempting to commit..."
        log.Println "Winner: About to send done signal..."
        chanSend done
        return none

/-- The method `WriteSkew.Do`. -/
def WriteSkew.Do (pg : Driver) (w : WriteSkew) (db : DB) (done : Chan) : Go Unit :=
  w.toPatternBase.Do pg db done w.Looser w.Winner

/-! ## `main.go` -/

/-- The constant `connectionString`. -/
def connectionString : String :=
  "host=localhost port=15432 user=user password=password dbname=testdb sslmode=disable"

/-- The function `invoke`. The deferred `db.Close()` runs at each return after
the handle is open. -/
def invoke (pg : Driver) (fn : DB → Chan → Go Unit) : Go Unit := do
  match ← sql.Open pg .db connectionString with
  | .error err =>
    log.Printf "**** Failed to create setup DB connection: %v" [err.Error]
  | .ok db =>
    match ← db.Exec "DELETE FROM test;" with
    | some err =>
      log.Printf "**** Failed to delete all records: %v" [err.Error]
      db.Close .db
    | none =>
      match ← db.Exec "INSERT INTO test (name) VALUES ('Alice'), ('Bob');" with
      | some err =>
        log.Printf "**** Failed to seed records: %v" [err.Error]
        db.Close .db
      | none =>
        emit (.make .done)
        fn db .done
        chanRecv .done
        chanRecv .done
        db.Close .db

/-- The three scenarios `main` runs, one after the other. -/
inductive Scenario where
  | dirtyRead
  | phantomRead
  | writeSkew
  deriving DecidableEq, Repr

/-- The `PatternBase` embedded in the scenario object `main` constructs. -/
def Scenario.base : Scenario → PatternBase
  | .dirtyRead => (NewDirtyRead connectionString).toPatternBase
  | .phantomRead => (NewPhantomRead connectionString).toPatternBase
  | .writeSkew => (NewWriteSkew connectionString).toPatternBase

/-- The `Looser` method of the scenario object `main` constructs. -/
def Scenario.Looser : Scenario → Tx → Chan → Go (Option GoError)
  | .dirtyRead => (NewDirtyRead connectionString).Looser
  | .phantomRead => (NewPhantomRead connectionString).Looser
  | .writeSkew => (NewWriteSkew connectionString).Looser

/-- The `Winner` method of the scenario object `main` constructs. -/
def Scenario.Winner : Scenario → Tx → Chan → Go (Option GoError)
  | .dirtyRead => (NewDirtyRead connectionString).Winner
  | .phantomRead => (NewPhantomRead connectionString).Winner
  | .writeSkew => (NewWriteSkew connectionString).Winner

/-- The `Do` method value `main` passes to `invoke`:
`pattern.NewDirtyRead(connectionString).Do` and its two siblings. -/
def Scenario.Do (pg : Driver) : Scenario → DB → Chan → Go Unit
  | .dirtyRead => (NewDirtyRead connectionString).Do pg
  | .phantomRead => (NewPhantomRead connectionString).Do pg
  | .writeSkew => (NewWriteSkew connectionString).Do pg

/-- One call `invoke(scenario.Do)` of `main`, run against the store `pg`. -/
def Scenario.run (sc : Scenario) (pg : Driver) : Out Unit :=
  invoke pg (sc.Do pg) 0

/-- The operations of the goroutine a role runs in: the closure `PatternBase.Do`
starts with `go`, for the store handle `db`. -/
def Scenario.roleCode (sc : Scenario) (t : Tid) (db : DB) : List Event :=
  match t with
  | .looser => (sc.base.looserGoroutine db .done sc.Looser 0).events
  | .winner => (sc.base.winnerGoroutine db .done sc.Winner 0).events
  | .main => []

/-! ## Goroutines and channels: the interleaving semantics -/

/-- The state of one scenario run. `code t` is the sequence of operations
goroutine `t` performs once started, `todo t` what it has still to perform,
`buf c` the number of values buffered in channel `c`, `closed c` whether `c`
has been closed, `crashed` whether the process has died of a panic, and
`hist` the operations performed so far, oldest first. -/
structure Sys where
  code : Tid → List Event
  todo : Tid → List Event
  buf : Chan → Nat
  closed : Chan → Bool
  crashed : Bool
  hist : List (Tid × Event)

/-- The state before the main goroutine has performed any operation: no other
goroutine runs yet, every channel is empty and open. -/
def Sys.init (o : Out Unit) : Sys where
  code := fun t => if t = .main then o.events else (o.spawned.lookup t).getD []
  todo := fun t => if t = .main then o.events else []
  buf := fun _ => 0
  closed := fun _ => false
  crashed := false
  hist := []

/-- A scheduling choice: goroutine `t` performs its next operation on its
own, or a sender and a receiver meet on an unbuffered channel. -/
inductive Move where
  | solo (t : Tid)
  | sync (sender receiver : Tid)
  deriving DecidableEq, Repr

/-- Whether a goroutine whose next operation is `e` can perform it on its own:
* a send needs room in the buffer of the channel (an unbuffered channel never
  has room: the sender waits for a receiver, see `Move.sync`), or a closed
  channel, on which it panics;
* a receive needs a buffered value, or a closed channel, from which it returns
  at once;
* every other operation (store calls, log lines, `close`, `go`, panics) is
  always possible. -/
def Sys.enabled (s : Sys) : Event → Bool
  | .send c => s.closed c || decide (s.buf c < c.cap)
  | .recv c => decide (0 < s.buf c) || s.closed c
  | _ => true

/-- The state after goroutine `t` has performed `e` on its own, with `rest`
left to do:
* `go u` starts goroutine `u` on its code;
* a send stores a value in the buffer, a receive takes one when there is one;
* `close` closes the channel;
* `log.Panicf`, a send on a closed channel and a `close` of a closed channel
  panic, which kills the process. -/
def Sys.perform (s : Sys) (t : Tid) (e : Event) (rest : List Event) : Sys where
  code := s.code
  todo :=
    match e with
    | .go u => Function.update (Function.update s.todo t rest) u (s.code u)
    | _ => Function.update s.todo t rest
  buf :=
    match e with
    | .send c => if s.closed c then s.buf else Function.update s.buf c (s.buf c + 1)
    | .recv c => if 0 < s.buf c then Function.update s.buf c (s.buf c - 1) else s.buf
    | _ => s.buf
  closed :=
    match e with
    | .close c => Function.update s.closed c true
    | _ => s.closed
  crashed :=
    match e with
    | .send c => s.closed c
    | .close c => s.closed c
    | .panic _ _ => true
    | _ => false
  hist := s.hist ++ [(t, e)]

/-- One step of the run, or `none` when the chosen move is not possible.
Nothing moves once the process has crashed. A goroutine moves on its own when
its next operation is enabled. On an open unbuffered channel a goroutine
waiting to send and another waiting to receive proceed together. -/
def Sys.fire (s : Sys) : Move → Option Sys
  | .solo t =>
    if s.crashed then none else
    match s.todo t with
    | [] => none
    | e :: rest => if s.enabled e then some (s.perform t e rest) else none
  | .sync a b =>
    if s.crashed then none else
    if a = b then none else
    match s.todo a, s.todo b with
    | .send c :: ra, .recv c2 :: rb =>
      if c = c2 ∧ c.cap = 0 ∧ s.closed c = false then
        some { s with
          todo := Function.update (Function.update s.todo a ra) b rb
          hist := s.hist ++ [(a, .send c), (b, .recv c)] }
      else none
    | _, _ => none

/-- Running a schedule, move by move; `none` when some move is not possible. -/
def Sys.exec (s : Sys) : List Move → Option Sys
  | [] => some s
  | m :: ms =>
    match s.fire m with
    | none => none
    | some s2 => s2.exec ms

/-- The states a run started in `s0` can be in. -/
inductive Reachable (s0 : Sys) : Sys → Prop where
  | start : Reachable s0 s0
  | step {s s2 : Sys} (m : Move) : Reachable s0 s → s.fire m = some s2 → Reachable s0 s2

/-- Every scheduling choice there is. -/
def allMoves : List Move :=
  [.solo .main, .solo .looser, .solo .winner,
   .sync .main .looser, .sync .main .winner, .sync .looser .main,
   .sync .looser .winner, .sync .winner .main, .sync .winner .looser,
   .sync .main .main, .sync .looser .looser, .sync .winner .winner]

/-- No goroutine can move: the run is over or deadlocked. -/
def Sys.stuck (s : Sys) : Bool := allMoves.all (fun m => (s.fire m).isNone)

/-- The operations of goroutine `t` in a history, in order. -/
def proj (t : Tid) (h : List (Tid × Event)) : List Event :=
  (h.filter (fun p => p.1 = t)).map Prod.snd

/-- How many times operation `e` occurs in a history, whoever performed it. -/
def occurrences (e : Event) (h : List (Tid × Event)) : Nat :=
  h.countP (fun p => p.2 = e)

/-! ## Control skeletons

What a goroutine does depends on the store only through which call is the first
to fail. `Fate` names that call, `Op` forgets from an operation everything but
its part in the protocol, and `roleShape` lists, for each fate, the protocol
operations of a role goroutine in order. -/

/-- The protocol content of an operation: log lines and the calls on `*sql.DB`
have none; of a statement only its kind remains. -/
inductive Op where
  | send (c : Chan)
  | recv (c : Chan)
  | close (c : Chan)
  | go (t : Tid)
  | panic
  | ret
  | begin
  | setIso
  | read
  | write
  | commit
  | rollback
  deriving DecidableEq, Repr

/-- The protocol content of an event. A `tx.Exec` is the isolation-level
statement of the runner or a write of a role function; a `tx.QueryRow` is a
read. -/
def Event.op : Event → Option Op
  | .send c => some (.send c)
  | .recv c => some (.recv c)
  | .close c => some (.close c)
  | .go t => some (.go t)
  | .panic _ _ => some .panic
  | .ret _ => some .ret
  | .begin _ => some .begin
  | .exec stmt _ _ => some (if stmt = setIsolationLevel then .setIso else .write)
  | .queryRow _ _ => some .read
  | .commit _ => some .commit
  | .rollback _ => some .rollback
  | _ => none

/-- The protocol operations of a sequence of events, in order. -/
def skel (es : List Event) : List Op := es.filterMap Event.op

/-- One of the three statements a role function issues. -/
inductive Nth where
  | first
  | second
  | third
  deriving DecidableEq, Repr, Fintype

/-- The first of the three statements issued from statement number `n` on that
fails, if any. -/
def bodyFate (tx : Tx) (n : Nat) : Option Nth :=
  if (tx.stmt n).isSome then some .first
  else if (tx.stmt (n + 1)).isSome then some .second
  else if (tx.stmt (n + 2)).isSome then some .third
  else none

/-- How far a role's transaction gets: the first store call that fails. A
failing `Commit` or `Rollback` changes nothing in what the goroutine does
afterwards, so neither is part of the fate. -/
inductive Fate where
  | beginFails
  | isolationFails
  | stmtFails (k : Nth)
  | completes
  deriving DecidableEq, Repr, Fintype

/-- The fate of the role that is given store handle `db`. -/
def fateOf (db : DB) : Fate :=
  match db.begin with
  | .error _ => .beginFails
  | .ok tx =>
    if (tx.stmt 0).isSome then .isolationFails
    else match bodyFate tx 1 with
      | some k => .stmtFails k
      | none => .completes

/-- Whether the `k`-th statement of a role function belongs to its read phase,
the statements issued before the ready signal: two reads in `DirtyRead` and
`WriteSkew`, one count in `PhantomRead`. The others form the write phase. -/
def Scenario.inReadPhase : Scenario → Nth → Bool
  | .phantomRead, .first => true
  | .phantomRead, _ => false
  | _, .third => false
  | _, _ => true

/-- The protocol operations of a role function whose first failing statement
is `k`, for the role whose arrival channels are `ready` and `writeDone`. -/
def bodyShape (sc : Scenario) (ready writeDone : Chan) (k : Option Nth) : List Op :=
  match sc, k with
  | .phantomRead, some .first => [.read, .send .done]
  | .phantomRead, some .second =>
    [.read, .send ready, .recv .proceedSignal, .write, .send .done]
  | .phantomRead, some .third =>
    [.read, .send ready, .recv .proceedSignal, .write, .read, .send .done]
  | .phantomRead, none =>
    [.read, .send ready, .recv .proceedSignal, .write, .read,
      .send writeDone, .recv .commitSignal, .send .done]
  | _, some .first => [.read, .send .done]
  | _, some .second => [.read, .read, .send .done]
  | _, some .third =>
    [.read, .read, .send ready, .recv .proceedSignal, .write, .send .done]
  | _, none =>
    [.read, .read, .send ready, .recv .proceedSignal, .write,
      .send writeDone, .recv .commitSignal, .send .done]

/-- The protocol operations of a role goroutine with the given fate. -/
def roleShape (sc : Scenario) (ready writeDone : Chan) : Fate → List Op
  | .beginFails => [.begin]
  | .isolationFails => [.begin, .setIso, .rollback, .panic]
  | .stmtFails k => [.begin, .setIso] ++ bodyShape sc ready writeDone (some k) ++ [.rollback]
  | .completes => [.begin, .setIso] ++ bodyShape sc ready writeDone none ++ [.commit]

/-- The channel on which a role announces the end of its read phase. -/
def Tid.ready : Tid → Chan
  | .winner => .winnerReady
  | _ => .looserReady

/-- The channel on which a role announces the end of its write phase. -/
def Tid.writeDone : Tid → Chan
  | .winner => .winnerWriteDone
  | _ => .looserWriteDone

/-! ## Vocabulary of the statements -/

/-- The calls that end a transaction: `Commit` and `Rollback`. -/
def Event.isTerminal : Event → Bool
  | .commit _ => true
  | .rollback _ => true
  | _ => false

/-- The `Commit` and `Rollback` calls among the operations `es`, in order. -/
def terminalCalls (es : List Event) : List Event := es.filter Event.isTerminal

/-- Channel operations: send, receive and close. -/
def Event.isChan : Event → Bool
  | .send _ => true
  | .recv _ => true
  | .close _ => true
  | _ => false

/-- The channel operations among `es`, in order. -/
def chanOps (es : List Event) : List Event := es.filter Event.isChan

/-- Statements executed on a transaction: `tx.Exec` and `tx.QueryRow`. -/
def Event.isStmt : Event → Bool
  | .exec _ _ _ => true
  | .queryRow _ _ => true
  | _ => false

/-- A statement that returned an error. -/
def Event.isFailedStmt : Event → Bool
  | .exec _ _ (some _) => true
  | .queryRow _ (some _) => true
  | _ => false

/-- No statement is issued after one that failed. -/
def noStmtAfterFailure : List Event → Bool
  | [] => true
  | e :: es => (!e.isFailedStmt || es.all (fun x => !x.isStmt)) && noStmtAfterFailure es

/-- A store handle on which `Begin` succeeds with a transaction on which every
call succeeds, except that statement number `k` fails with `e` when `fail` is
`some (k, e)`, and that `Commit` returns `commit`. -/
def scriptedDB (fail : Option (Nat × GoError)) (commit : Option GoError) : DB where
  begin := .ok
    { stmt := fun k => match fail with
        | some (j, e) => if k = j then some e else none
        | none => none
      scan := fun _ => "x"
      commit := commit
      rollback := none }
  exec := fun _ => none

/-- The transaction of `scriptedDB`. -/
def scriptedTx (fail : Option (Nat × GoError)) (commit : Option GoError) : Tx :=
  match (scriptedDB fail commit).begin with
  | .ok tx => tx
  | .error _ => ⟨fun _ => none, fun _ => "", none, none⟩

/-- A store in which every `sql.Open` succeeds, the seeding statements succeed,
and the two role handles are `db1` and `db2`. -/
def scriptedDriver (db1 db2 : DB) : Driver where
  sqlOpen := fun h => match h with
    | .db => .ok (scriptedDB none none)
    | .db1 => .ok db1
    | .db2 => .ok db2

/-- What a role function does, by the first of its statements that fails: its
protocol operations, its channel operations, its result, and that it issues no
statement after a failed one. `ready` and `writeDone` are the arrival channels
of the role, `n` the number of statements issued before the function runs. -/
def RoleSpec (sc : Scenario) (ready writeDone : Chan) (tx : Tx) (n : Nat)
    (o : Out (Option GoError)) : Prop :=
  skel o.events = bodyShape sc ready writeDone (bodyFate tx n) ∧
  chanOps o.events
    = (match bodyFate tx n with
        | none => [.send ready, .recv .proceedSignal, .send writeDone, .recv .commitSignal]
        | some j => if sc.inReadPhase j then [] else [.send ready, .recv .proceedSignal])
      ++ [.send .done] ∧
  (∃ r, o.res = .val r ∧ (r = none ↔ bodyFate tx n = none)) ∧
  noStmtAfterFailure o.events = true

/-- A store in which `sql.Open` fails with `e` for handle `h` and succeeds,
like everything else, for the other handles. -/
def failingDriver (h : DBId) (e : GoError) : Driver where
  sqlOpen := fun k => if k = h then .error e else .ok (scriptedDB none none)

/-! ## Invariants of the interleaving semantics -/

/-- Goroutine `t` has been started: it is the main goroutine, or the main
goroutine has performed `go t`. -/
def Sys.started (s : Sys) (t : Tid) : Prop :=
  t = .main ∨ (Tid.main, Event.go t) ∈ s.hist

/-- What the invariants need of the code of the goroutines: only the main
goroutine executes `go` statements, none of them starts the main goroutine, and
each is executed at most once. -/
structure WellFormed (code : Tid → List Event) : Prop where
  go_main : ∀ t, Event.go .main ∉ code t
  go_role : ∀ t u, t ≠ .main → Event.go u ∉ code t
  go_once : ∀ u, (code .main).count (.go u) ≤ 1

/-- Program order: what a started goroutine has performed, followed by what it
has still to do, is its code; a goroutine that has not been started has done
nothing and has nothing to do. -/
structure OrderInv (s0 s : Sys) : Prop where
  code_eq : s.code = s0.code
  order : ∀ t, s.started t → proj t s.hist ++ s.todo t = s.code t
  idle : ∀ t, ¬ s.started t → proj t s.hist = [] ∧ s.todo t = []

/-- The channel state agrees with the history: a closed channel has been
closed by somebody; on a channel that is still open every value sent has been
received or sits in the buffer; no buffer exceeds its capacity; and a crash has
a cause in the history. -/
structure ChanInv (s : Sys) : Prop where
  closed_hist : ∀ c, s.closed c = true → ∃ t, (t, Event.close c) ∈ s.hist
  counts : ∀ c, s.closed c = false →
    occurrences (.recv c) s.hist + s.buf c = occurrences (.send c) s.hist
  buf_cap : ∀ c, s.buf c ≤ c.cap
  crash : s.crashed = true →
    (∃ t f a, (t, Event.panic f a) ∈ s.hist) ∨
    (∃ t u c, (t, Event.send c) ∈ s.hist ∧ (u, Event.close c) ∈ s.hist) ∨
    (∃ c, 2 ≤ occurrences (.close c) s.hist)

/-- Every occurrence of `o` in `l` comes after an occurrence of `g`. -/
def gated (g o : Op) : List Op → Bool
  | [] => true
  | x :: xs => if x = o then false else if x = g then true else gated g o xs

/-- How far the main goroutine gets with the store: the seeding of `invoke`
fails, or `sql.Open` fails in `Do`, or `Do` starts the two roles, whose fates
are then `fl` and `fw`. -/
inductive SysFate where
  | setupFails
  | openFails
  | launched (fl fw : Fate)
  deriving DecidableEq, Repr

/-- The fate of the run against the store `pg`. -/
def sysFate (pg : Driver) : SysFate :=
  match pg.sqlOpen .db with
  | .error _ => .setupFails
  | .ok db =>
    if (db.exec 0).isSome then .setupFails
    else if (db.exec 1).isSome then .setupFails
    else match pg.sqlOpen .db1 with
      | .error _ => .openFails
      | .ok db1 =>
        match pg.sqlOpen .db2 with
        | .error _ => .openFails
        | .ok db2 => .launched (fateOf db1) (fateOf db2)

/-- The protocol operations of the main goroutine: of `invoke` around `Do`. -/
def mainShape : SysFate → List Op
  | .setupFails => []
  | .openFails => [.send .done, .send .done, .ret, .recv .done, .recv .done]
  | .launched _ _ =>
    [.go .looser, .go .winner, .recv .looserReady, .recv .winnerReady, .close .proceedSignal,
      .recv .looserWriteDone, .recv .winnerWriteDone, .close .commitSignal, .ret,
      .recv .done, .recv .done]

/-- The protocol operations of each goroutine of a run with the given fate. -/
def sysShape (sc : Scenario) (f : SysFate) (t : Tid) : List Op :=
  match t, f with
  | .main, f => mainShape f
  | .looser, .launched fl _ => roleShape sc .looserReady .looserWriteDone fl
  | .winner, .launched _ fw => roleShape sc .winnerReady .winnerWriteDone fw
  | _, _ => []

/-- Every fate of a role. -/
def allFates : List Fate :=
  [.beginFails, .isolationFails, .stmtFails .first, .stmtFails .second, .stmtFails .third,
    .completes]

/-- Every fate of a run. -/
def allSysFates : List SysFate :=
  [.setupFails, .openFails] ++ allFates.flatMap (fun fl => allFates.map (fun fw => .launched fl fw))

/-- The three scenarios. -/
def allScenarios : List Scenario := [.dirtyRead, .phantomRead, .writeSkew]

/-- The three goroutines. -/
def allTids : List Tid := [.main, .looser, .winner]

/-- A check on the protocol operations of the goroutines holds for every
scenario and every fate of the run. -/
def allShapes (p : (Tid → List Op) → Bool) : Bool :=
  allScenarios.all (fun sc => allSysFates.all (fun f => p (sysShape sc f)))

/-- For every occurrence of `o` in `l`, the check `p` holds of the operations
before it (`acc` stands for those before `l` itself). -/
def beforeEach (o : Op) (p : List Op → Bool) (acc : List Op) : List Op → Bool
  | [] => true
  | x :: xs => (if x = o then p acc else true) && beforeEach o p (acc ++ [x]) xs

/-- The state a schedule leads to, the starting state when the schedule is not
possible. -/
def Sys.after (s : Sys) (ms : List Move) : Sys := (s.exec ms).getD s

/-! ## Concrete runs -/

/-- A store on which every call succeeds. -/
def happyDriver : Driver := scriptedDriver (scriptedDB none none) (scriptedDB none none)

/-- A schedule of the `DirtyRead` run on `happyDriver`: the main goroutine runs
up to its first receive, each role runs up to its ready send and meets the main
goroutine, the main goroutine closes `proceedSignal`, each role writes and
meets the main goroutine with its write-done send, and the main goroutine
closes `commitSignal` and returns from `Do`, before any role has moved on. -/
def happySchedule : List Move :=
  List.replicate 10 (.solo .main) ++ List.replicate 8 (.solo .looser) ++ [.sync .looser .main]
    ++ [.solo .main] ++ List.replicate 8 (.solo .winner) ++ [.sync .winner .main]
    ++ List.replicate 4 (.solo .main) ++ List.replicate 6 (.solo .looser)
    ++ [.sync .looser .main]
    ++ [.solo .main] ++ List.replicate 6 (.solo .winner) ++ [.sync .winner .main]
    ++ List.replicate 6 (.solo .main)

/-- The state `happySchedule` leads to. -/
def happyState : Sys := (Sys.init (Scenario.run .dirtyRead happyDriver)).after happySchedule

/-- The rest of the run after `happySchedule`: both roles send on `done` and
commit, and `invoke` receives twice and closes its handle. -/
def happyEnding : List Move :=
  List.replicate 6 (.solo .looser) ++ List.replicate 6 (.solo .winner)
    ++ List.replicate 3 (.solo .main)

/-- A store on which the first read of each role fails. -/
def bothReadsFailDriver : Driver :=
  scriptedDriver (scriptedDB (some (1, .base "read failed")) none)
    (scriptedDB (some (1, .base "read failed")) none)

/-- A schedule of the `DirtyRead` run on `bothReadsFailDriver`: the main
goroutine runs up to its first receive, then each role runs to its end. -/
def bothReadsFailSchedule : List Move :=
  List.replicate 10 (.solo .main) ++ List.replicate 10 (.solo .looser)
    ++ List.replicate 10 (.solo .winner)

/-! ## Abandoned barriers -/

/-- The two barriers of a run: the first releases `proceedSignal` on the two
ready signals, the second releases `commitSignal` on the two write-done
signals. -/
inductive Barrier where
  | ready
  | writeDone
  deriving DecidableEq, Repr

/-- The channel on which role `t` arrives at the barrier. -/
def Barrier.arrive : Barrier → Tid → Chan
  | .ready, t => t.ready
  | .writeDone, t => t.writeDone

/-- The channel the main goroutine closes to release the barrier. -/
def Barrier.release : Barrier → Chan
  | .ready => .proceedSignal
  | .writeDone => .commitSignal

/-- The role aborts before it arrives at the barrier, without a panic: a
statement of the phase that ends at the barrier is the first store call to
fail or, for the ready barrier, `Begin` fails. -/
def Barrier.abortedBy (b : Barrier) (sc : Scenario) : Fate → Bool
  | .beginFails => decide (b = .ready)
  | .stmtFails k => if b = .ready then sc.inReadPhase k else !sc.inReadPhase k
  | _ => false

/-- The role succeeds in the phase that ends at the barrier. -/
def Barrier.passedBy (b : Barrier) (sc : Scenario) : Fate → Bool
  | .stmtFails k => if b = .ready then !sc.inReadPhase k else false
  | .completes => true
  | _ => false

/-- The other role. -/
def Tid.other : Tid → Tid
  | .looser => .winner
  | .winner => .looser
  | .main => .main

/-- The fate of role `t` in a run where the looser has fate `fl` and the winner
fate `fw`. -/
def fateAt (fl fw : Fate) : Tid → Fate
  | .winner => fw
  | _ => fl

/-- Where the other role stays when role `r` never arrives at barrier `b`. The
main goroutine receives the arrival of the looser first: when the looser is
missing, the winner cannot even hand over its own arrival; when the winner is
missing, the looser has arrived and waits for the release. -/
def Barrier.otherWaitsAt (b : Barrier) : Tid → Event
  | .looser => .send (b.arrive .winner)
  | _ => .recv b.release

/-- The two barriers. -/
def allBarriers : List Barrier := [.ready, .writeDone]

/-- A check on the protocol operations holds in every run in which both roles
are started, role `r` aborts before it arrives at barrier `b` and the other
role succeeds in the phase that ends at `b`. -/
def allAbandoned (p : Barrier → Tid → (Tid → List Op) → Bool) : Bool :=
  allScenarios.all fun sc => allBarriers.all fun b => [Tid.looser, Tid.winner].all fun r =>
    allFates.all fun fl => allFates.all fun fw =>
      !(b.abortedBy sc (fateAt fl fw r) && b.passedBy sc (fateAt fl fw r.other))
        || p b r (sysShape sc (.launched fl fw))

/-- A store on which the first read of the looser fails and every other call
succeeds. -/
def looserReadFailsDriver : Driver :=
  scriptedDriver (scriptedDB (some (1, .base "read failed")) none) (scriptedDB none none)

/-- A schedule of the `DirtyRead` run on `looserReadFailsDriver`: the main
goroutine runs up to its first receive, the looser runs to its end, the winner
runs up to its ready send. -/
def looserReadFailsSchedule : List Move :=
  List.replicate 10 (.solo .main) ++ List.replicate 10 (.solo .looser)
    ++ List.replicate 8 (.solo .winner)

/-! ## The protocol on its own

The interleaving semantics looks at an operation only to tell sends, receives,
closes, `go` statements and panics from the rest. Running the protocol
operations of the goroutines alone, without log lines and with a placeholder
for every store call, therefore shows what the goroutines can do to each
other. -/

/-- An event with the given protocol content. -/
def Op.event : Op → Event
  | .send c => .send c
  | .recv c => .recv c
  | .close c => .close c
  | .go t => .go t
  | .panic => .panic "" []
  | .ret => .ret ""
  | .begin => .begin none
  | .setIso => .exec setIsolationLevel [] none
  | .read => .queryRow "" none
  | .write => .exec "" [] none
  | .commit => .commit none
  | .rollback => .rollback none

/-- The initial state of the system whose goroutines perform exactly the
protocol operations `sh`. -/
def absInit (sh : Tid → List Op) : Sys :=
  Sys.init ⟨.val (), (sh .main).map Op.event, 0,
    [(.looser, (sh .looser).map Op.event), (.winner, (sh .winner).map Op.event)]⟩

/-- The state after the first of the moves `ms` that is possible. -/
def Sys.firstOf (s : Sys) : List Move → Option Sys
  | [] => none
  | m :: ms =>
    match s.fire m with
    | some s2 => some s2
    | none => s.firstOf ms

/-- Running at most `n` moves, each the first possible one of `allMoves`. -/
def Sys.runGreedy : Nat → Sys → Sys
  | 0, s => s
  | n + 1, s =>
    match s.firstOf allMoves with
    | some s2 => s2.runGreedy n
    | none => s

/-- State `s` of a run and state `a` of the protocol on its own agree: each
goroutine has the same protocol operations left and the same in its code, and
the channels are in the same state. -/
structure Sim (s a : Sys) : Prop where
  todo : ∀ t, skel (s.todo t) = skel (a.todo t)
  code : ∀ t, skel (s.code t) = skel (a.code t)
  buf : s.buf = a.buf
  closed : s.closed = a.closed
  crashed : s.crashed = a.crashed
  pure_todo : ∀ t, ∀ x ∈ a.todo t, x.op ≠ none
  pure_code : ∀ t, ∀ x ∈ a.code t, x.op ≠ none

/-! # Theorems -/

/-! ## Evaluation lemmas for `Go` -/

section GoLemmas
variable {α β : Type}

@[simp] theorem bind_def (x : Go α) (f : α → Go β) : (x >>= f) = Go.bind x f := rfl
@[simp] theorem pure_def (a : α) : (Pure.pure a : Go α) = Go.pure a := rfl

@[simp] theorem Out.after_res (es : List Event) (sp : List (Tid × List Event)) (o : Out β) :
    (o.after es sp).res = o.res := rfl
@[simp] theorem Out.after_events (es : List Event) (sp : List (Tid × List Event)) (o : Out β) :
    (o.after es sp).events = es ++ o.events := rfl
@[simp] theorem Out.after_calls (es : List Event) (sp : List (Tid × List Event)) (o : Out β) :
    (o.after es sp).calls = o.calls := rfl
@[simp] theorem Out.after_spawned (es : List Event) (sp : List (Tid × List Event)) (o : Out β) :
    (o.after es sp).spawned = sp ++ o.spawned := rfl

theorem Go.bind_val {x : Go α} {f : α → Go β} {n : Nat} {a : α} (h : (x n).res = .val a) :
    Go.bind x f n = (f a (x n).calls).after (x n).events (x n).spawned := by
  simp [Go.bind, h]

theorem Go.bind_panicked {x : Go α} {f : α → Go β} {n : Nat} (h : (x n).res = .panicked) :
    Go.bind x f n = ⟨.panicked, (x n).events, (x n).calls, (x n).spawned⟩ := by
  simp [Go.bind, h]

@[simp] theorem Out.after_nil (o : Out β) : o.after [] [] = o := by
  cases o; simp [Out.after]

@[simp] theorem Go.pure_apply (a : α) (n : Nat) : Go.pure a n = ⟨.val a, [], n, []⟩ := rfl

@[simp] theorem Go.pure_bind (a : α) (f : α → Go β) (n : Nat) : Go.bind (Go.pure a) f n = f a n := by
  simp [Go.bind]

@[simp] theorem bind_emit (e : Event) (f : Unit → Go β) (n : Nat) :
    Go.bind (emit e) f n = (f () n).after [e] [] := rfl
@[simp] theorem bind_Printf (fmt : String) (args : List String) (f : Unit → Go β) (n : Nat) :
    Go.bind (log.Printf fmt args) f n = (f () n).after [.log fmt args] [] := rfl
@[simp] theorem bind_Println (line : String) (f : Unit → Go β) (n : Nat) :
    Go.bind (log.Println line) f n = (f () n).after [.log line []] [] := rfl
@[simp] theorem bind_Panicf (fmt : String) (args : List String) (f : Unit → Go β) (n : Nat) :
    Go.bind (log.Panicf fmt args) f n = ⟨.panicked, [.panic fmt args], n, []⟩ := rfl
@[simp] theorem bind_chanSend (c : Chan) (f : Unit → Go β) (n : Nat) :
    Go.bind (chanSend c) f n = (f () n).after [.send c] [] := rfl
@[simp] theorem bind_chanRecv (c : Chan) (f : Unit → Go β) (n : Nat) :
    Go.bind (chanRecv c) f n = (f () n).after [.recv c] [] := rfl
@[simp] theorem bind_chanClose (c : Chan) (f : Unit → Go β) (n : Nat) :
    Go.bind (chanClose c) f n = (f () n).after [.close c] [] := rfl
@[simp] theorem bind_goStmt (t : Tid) (body : Go Unit) (f : Unit → Go β) (n : Nat) :
    Go.bind (goStmt t body) f n = (f () n).after [.go t] [(t, (body 0).events)] := rfl
@[simp] theorem bind_Close (db : DB) (h : DBId) (f : Unit → Go β) (n : Nat) :
    Go.bind (db.Close h) f n = (f () n).after [.dbClose h] [] := rfl
@[simp] theorem bind_dbExec (db : DB) (stmt : String) (f : Option GoError → Go β) (n : Nat) :
    Go.bind (db.Exec stmt) f n = (f (db.exec n) (n + 1)).after [.dbExec stmt (db.exec n)] [] := rfl
@[simp] theorem bind_Exec (tx : Tx) (stmt : String) (args : List String)
    (f : Option GoError → Go β) (n : Nat) :
    Go.bind (tx.Exec stmt args) f n
      = (f (tx.stmt n) (n + 1)).after [.exec stmt args (tx.stmt n)] [] := rfl
@[simp] theorem bind_QueryRowScan (tx : Tx) (stmt : String)
    (f : String × Option GoError → Go β) (n : Nat) :
    Go.bind (tx.QueryRowScan stmt) f n
      = (f (tx.scan n, tx.stmt n) (n + 1)).after [.queryRow stmt (tx.stmt n)] [] := rfl
@[simp] theorem bind_Commit (tx : Tx) (f : Option GoError → Go β) (n : Nat) :
    Go.bind tx.Commit f n = (f tx.commit n).after [.commit tx.commit] [] := rfl
@[simp] theorem bind_Rollback (tx : Tx) (f : Option GoError → Go β) (n : Nat) :
    Go.bind tx.Rollback f n = (f tx.rollback n).after [.rollback tx.rollback] [] := rfl
@[simp] theorem bind_Begin (db : DB) (f : Except GoError Tx → Go β) (n : Nat) :
    Go.bind db.Begin f n
      = (f db.begin n).after
          [.begin (match db.begin with | .error e => some e | .ok _ => none)] [] := rfl
@[simp] theorem bind_sqlOpen (pg : Driver) (h : DBId) (cs : String)
    (f : Except GoError DB → Go β) (n : Nat) :
    Go.bind (sql.Open pg h cs) f n
      = (f (pg.sqlOpen h) n).after
          [.sqlOpen h (match pg.sqlOpen h with | .error e => some e | .ok _ => none)] [] := rfl

end GoLemmas


theorem Go.bind_assoc {α β γ : Type} (x : Go α) (f : α → Go β) (g : β → Go γ) :
    Go.bind (Go.bind x f) g = Go.bind x (fun a => Go.bind (f a) g) := by
  funext n
  simp only [Go.bind]
  rcases hx : (x n).res with a | _
  · simp only [Out.after_res]
    rcases hf : (f a (x n).calls).res with b | _
    · simp [Out.after, List.append_assoc]
    · simp [Out.after]
  · simp

@[simp] theorem emit_apply (e : Event) (n : Nat) : emit e n = ⟨.val (), [e], n, []⟩ := rfl
@[simp] theorem Printf_apply (fmt : String) (args : List String) (n : Nat) :
    log.Printf fmt args n = ⟨.val (), [.log fmt args], n, []⟩ := rfl
@[simp] theorem Println_apply (line : String) (n : Nat) :
    log.Println line n = ⟨.val (), [.log line []], n, []⟩ := rfl
@[simp] theorem chanRecv_apply (c : Chan) (n : Nat) :
    chanRecv c n = ⟨.val (), [.recv c], n, []⟩ := rfl
@[simp] theorem Close_apply (db : DB) (h : DBId) (n : Nat) :
    db.Close h n = ⟨.val (), [.dbClose h], n, []⟩ := rfl

/-! ## The transaction runners -/

@[simp] theorem terminalCalls_nil : terminalCalls [] = [] := rfl

@[simp] theorem terminalCalls_append (a b : List Event) :
    terminalCalls (a ++ b) = terminalCalls a ++ terminalCalls b := by
  simp [terminalCalls]

@[simp] theorem terminalCalls_cons (e : Event) (es : List Event) :
    terminalCalls (e :: es)
      = (if e.isTerminal then e :: terminalCalls es else terminalCalls es) := by
  simp [terminalCalls, List.filter_cons]

/-- Claim C6. Both runners end the transaction exactly once. When `Begin` fails
the runner logs and returns: the body is not invoked and neither `Commit` nor
`Rollback` is called. When `Begin` succeeds and the body returns, the `Commit`
and `Rollback` calls of the whole run are those of the body followed by exactly
one call of the runner: `Rollback` when the isolation-level statement or the
body failed, `Commit` when every earlier step succeeded. -/
theorem runner_ends_transaction_exactly_once (db : DB) (pn en : String)
    (fn : Tx → Go (Option GoError)) :
    (∀ e, db.begin = .error e →
      (Transaction db pn en fn 0).events
        = [.begin (some e), .log "[%s:%s] Failed to begin transaction: %v" [pn, en, e.Error]] ∧
      (TransactionWithSerializable db pn en fn 0).events
        = [.begin (some e), .log "[%s:%s] Failed to begin transaction: %v" [pn, en, e.Error]]) ∧
    (∀ tx, db.begin = .ok tx →
      (∀ e, (fn tx 0).res = .val (some e) →
        terminalCalls (Transaction db pn en fn 0).events
          = terminalCalls (fn tx 0).events ++ [.rollback tx.rollback]) ∧
      ((fn tx 0).res = .val none →
        terminalCalls (Transaction db pn en fn 0).events
          = terminalCalls (fn tx 0).events ++ [.commit tx.commit]) ∧
      (∀ e, tx.stmt 0 = some e →
        terminalCalls (TransactionWithSerializable db pn en fn 0).events
          = [.rollback tx.rollback]) ∧
      (tx.stmt 0 = none → ∀ e, (fn tx 1).res = .val (some e) →
        terminalCalls (TransactionWithSerializable db pn en fn 0).events
          = terminalCalls (fn tx 1).events ++ [.rollback tx.rollback]) ∧
      (tx.stmt 0 = none → (fn tx 1).res = .val none →
        terminalCalls (TransactionWithSerializable db pn en fn 0).events
          = terminalCalls (fn tx 1).events ++ [.commit tx.commit])) := by
  refine ⟨fun e hb => ?_, fun tx hb => ⟨fun e hf => ?_, fun hf => ?_, fun e hs => ?_,
    fun hs e hf => ?_, fun hs hf => ?_⟩⟩
  · simp [Transaction, TransactionWithSerializable, hb]
  · simp [Transaction, hb, Go.bind_val hf]
    cases tx.rollback <;> simp [Event.isTerminal]
  · simp [Transaction, hb, Go.bind_val hf]
    cases tx.commit <;> simp [Event.isTerminal]
  · simp [TransactionWithSerializable, hb, hs]
    cases tx.rollback <;> simp [Event.isTerminal]
  · simp [TransactionWithSerializable, hb, hs, Go.bind_val hf]
    cases tx.rollback <;> simp [Event.isTerminal]
  · simp [TransactionWithSerializable, hb, hs, Go.bind_val hf]
    cases tx.commit <;> simp [Event.isTerminal]

/-- Witness for C6: a body that fails with `boom`, on a store where everything
else succeeds, is followed by exactly one `Rollback` in both runners. -/
theorem runner_ends_transaction_exactly_once_witness :
    terminalCalls (Transaction (scriptedDB none none) "P" "Looser"
        (fun _ => Go.pure (some (.base "boom"))) 0).events = [.rollback none] ∧
    terminalCalls (TransactionWithSerializable (scriptedDB none none) "P" "Looser"
        (fun _ => Go.pure (some (.base "boom"))) 0).events = [.rollback none] :=
  ⟨((runner_ends_transaction_exactly_once (scriptedDB none none) "P" "Looser"
      (fun _ => Go.pure (some (.base "boom")))).2 (scriptedTx none none) rfl).1
        (.base "boom") rfl,
   ((runner_ends_transaction_exactly_once (scriptedDB none none) "P" "Looser"
      (fun _ => Go.pure (some (.base "boom")))).2 (scriptedTx none none) rfl).2.2.2.1 rfl
        (.base "boom") rfl⟩

/-- Claim C7, amended. Let `Begin` succeed. For `txm.Transaction` and a body
that returns `r`, and for `txm.TransactionWithSerializable` when the
isolation-level statement succeeds and the body, run after it, returns `r`:
* the runner returns nil exactly when the body returned nil and `Commit`
  succeeded;
* when the body returns an error `e`, the runner returns `errors.WithStack(e)`,
  whatever `Rollback` returns;
* when the body returns nil and `Commit` fails with `c`, the runner calls
  `Commit` once and returns `errors.WithStack(c)`: a wrapper with the message of
  `c`, not `c` itself;
* the pattern and executor names reach the log lines only: the returned value
  is the same for any other pair of names.
Each runner has its own hypotheses: the body of `Transaction` issues its
statements from the first one of the transaction, the body of
`TransactionWithSerializable` from the second. -/
theorem runner_returns_stack_wrapped_error (db : DB) (pn en : String)
    (fn : Tx → Go (Option GoError)) (tx : Tx) (hb : db.begin = .ok tx) :
    (∀ r, (fn tx 0).res = .val r →
      ((Transaction db pn en fn 0).res = .val none ↔ r = none ∧ tx.commit = none) ∧
      (∀ e, r = some e → (Transaction db pn en fn 0).res = .val (some (.withStack e))) ∧
      (∀ c, r = none → tx.commit = some c →
        (Transaction db pn en fn 0).res = .val (some (.withStack c)) ∧
        terminalCalls (Transaction db pn en fn 0).events
          = terminalCalls (fn tx 0).events ++ [.commit (some c)] ∧
        (GoError.withStack c).Error = c.Error ∧ GoError.withStack c ≠ c) ∧
      (∀ pn2 en2 : String,
        (Transaction db pn2 en2 fn 0).res = (Transaction db pn en fn 0).res)) ∧
    (tx.stmt 0 = none → ∀ r, (fn tx 1).res = .val r →
      ((TransactionWithSerializable db pn en fn 0).res = .val none
        ↔ r = none ∧ tx.commit = none) ∧
      (∀ e, r = some e →
        (TransactionWithSerializable db pn en fn 0).res = .val (some (.withStack e))) ∧
      (∀ c, r = none → tx.commit = some c →
        (TransactionWithSerializable db pn en fn 0).res = .val (some (.withStack c)) ∧
        terminalCalls (TransactionWithSerializable db pn en fn 0).events
          = terminalCalls (fn tx 1).events ++ [.commit (some c)] ∧
        (GoError.withStack c).Error = c.Error ∧ GoError.withStack c ≠ c) ∧
      (∀ pn2 en2 : String,
        (TransactionWithSerializable db pn2 en2 fn 0).res
          = (TransactionWithSerializable db pn en fn 0).res)) := by
  have hne : ∀ c : GoError, GoError.withStack c ≠ c := by
    intro c
    induction c with
    | base msg => simp
    | withStack cause ih => intro h; exact ih (GoError.withStack.inj h)
  refine ⟨fun r h0 => ?_, fun hiso r h1 => ?_⟩
  · have hT : ∀ p q : String, (Transaction db p q fn 0).res
        = .val (errors.WithStack (r.orElse fun _ => tx.commit)) := by
      intro p q
      simp only [Transaction, bind_def, pure_def, bind_Begin, hb, Go.bind_val h0, Out.after_res]
      rcases r with _ | e
      · rcases hc : tx.commit with _ | c <;> simp [hc, errors.WithStack]
      · rcases hr : tx.rollback with _ | c <;> simp [hr, errors.WithStack]
    refine ⟨?_, ?_, ?_, ?_⟩
    · rw [hT]
      rcases r with _ | e
      · rcases hc : tx.commit with _ | c <;> simp [errors.WithStack]
      · simp [errors.WithStack]
    · intro e he
      subst he
      rw [hT]; rfl
    · intro c hr hc
      subst hr
      refine ⟨by rw [hT, hc]; rfl, ?_, rfl, hne c⟩
      simp [Transaction, hb, Go.bind_val h0, hc, Event.isTerminal]
    · intro pn2 en2
      rw [hT, hT]
  · have hS : ∀ p q : String, (TransactionWithSerializable db p q fn 0).res
        = .val (errors.WithStack (r.orElse fun _ => tx.commit)) := by
      intro p q
      simp only [TransactionWithSerializable, bind_def, pure_def, bind_Begin, hb, bind_Exec, hiso,
        Go.bind_val h1, Out.after_res]
      rcases r with _ | e
      · rcases hc : tx.commit with _ | c <;> simp [hc, errors.WithStack]
      · rcases hr : tx.rollback with _ | c <;> simp [hr, errors.WithStack]
    refine ⟨?_, ?_, ?_, ?_⟩
    · rw [hS]
      rcases r with _ | e
      · rcases hc : tx.commit with _ | c <;> simp [errors.WithStack]
      · simp [errors.WithStack]
    · intro e he
      subst he
      rw [hS]; rfl
    · intro c hr hc
      subst hr
      refine ⟨by rw [hS, hc]; rfl, ?_, rfl, hne c⟩
      simp [TransactionWithSerializable, hb, hiso, Go.bind_val h1, hc, Event.isTerminal]
    · intro pn2 en2
      rw [hS, hS]

/-- Witness for C7: the looser of `DirtyRead` as the body. Under
`TransactionWithSerializable` its `UPDATE`, the fourth statement of the
transaction, fails with `write failed`; under `Transaction` its first read, the
first statement of the transaction, fails with `read failed`. -/
theorem runner_returns_stack_wrapped_error_witness :
    (scriptedDB (some (3, .base "write failed")) none).begin
      = .ok (scriptedTx (some (3, .base "write failed")) none) ∧
    (Scenario.Looser .dirtyRead (scriptedTx (some (3, .base "write failed")) none) .done 1).res
      = .val (some (.base "write failed")) ∧
    (TransactionWithSerializable (scriptedDB (some (3, .base "write failed")) none)
      "DirtyRead" "Looser" (fun tx => Scenario.Looser .dirtyRead tx .done) 0).res
      = .val (some (.withStack (.base "write failed"))) ∧
    (Transaction (scriptedDB (some (0, .base "read failed")) none)
      "DirtyRead" "Looser" (fun tx => Scenario.Looser .dirtyRead tx .done) 0).res
      = .val (some (.withStack (.base "read failed"))) :=
  ⟨rfl, by decide, ((runner_returns_stack_wrapped_error
    (scriptedDB (some (3, .base "write failed")) none) "DirtyRead" "Looser"
    (fun tx => Scenario.Looser .dirtyRead tx .done)
    (scriptedTx (some (3, .base "write failed")) none) rfl).2 (by decide)
    (some (.base "write failed")) (by decide)).2.1 (.base "write failed") rfl,
   ((runner_returns_stack_wrapped_error
    (scriptedDB (some (0, .base "read failed")) none) "DirtyRead" "Looser"
    (fun tx => Scenario.Looser .dirtyRead tx .done)
    (scriptedTx (some (0, .base "read failed")) none) rfl).1
    (some (.base "read failed")) (by decide)).2.1 (.base "read failed") rfl⟩

/-- Counterexample to C7 as stated: the body succeeds and `Commit` fails with
`c = serialization failure`; the runner does not return `c` unchanged but a
stack wrapper around it, and the value it returns carries neither the pattern
nor the executor name (it is the same under other names). -/
theorem commit_error_is_wrapped_not_unchanged :
    (TransactionWithSerializable (scriptedDB none (some (.base "serialization failure")))
      "WriteSkew" "Looser" (fun _ => Go.pure none) 0).res
      ≠ .val (some (.base "serialization failure")) ∧
    (TransactionWithSerializable (scriptedDB none (some (.base "serialization failure")))
      "WriteSkew" "Looser" (fun _ => Go.pure none) 0).res
      = (TransactionWithSerializable (scriptedDB none (some (.base "serialization failure")))
      "" "" (fun _ => Go.pure none) 0).res ∧
    (Transaction (scriptedDB none (some (.base "serialization failure")))
      "WriteSkew" "Looser" (fun _ => Go.pure none) 0).res
      ≠ .val (some (.base "serialization failure")) := by
  decide

/-- Claim C8. In `TransactionWithSerializable` the isolation-level statement is
the first call after `Begin` and precedes everything the body does. When it
fails, whatever the body is and whatever `Rollback` returns, the run is:
`Begin`, the statement, one `Rollback`, a log line if the rollback failed, and
a panic: the body is not invoked, `Commit` is not called, and the call does
not return. -/
theorem isolation_failure_rolls_back_and_panics (db : DB) (pn en : String)
    (fn : Tx → Go (Option GoError)) (tx : Tx) (hb : db.begin = .ok tx) :
    (∀ e, tx.stmt 0 = some e →
      (TransactionWithSerializable db pn en fn 0).res = .panicked ∧
      (TransactionWithSerializable db pn en fn 0).events
        = [.begin none, .exec setIsolationLevel [] (some e), .rollback tx.rollback]
          ++ (match tx.rollback with
              | some re => [.log "[%s:%s] Failed to rollback transaction: %v" [pn, en, re.Error]]
              | none => [])
          ++ [.panic "[%s:%s] Failed to set transaction isolation level: %v" [pn, en, e.Error]] ∧
      terminalCalls (TransactionWithSerializable db pn en fn 0).events
        = [.rollback tx.rollback]) ∧
    (tx.stmt 0 = none →
      ∃ rest, (TransactionWithSerializable db pn en fn 0).events
        = [.begin none, .exec setIsolationLevel [] none] ++ (fn tx 1).events ++ rest) := by
  refine ⟨fun e hs => ?_, fun hs => ?_⟩
  · rcases hr : tx.rollback with _ | re <;>
      simp [TransactionWithSerializable, hb, hs, hr, Event.isTerminal]
  · rcases hf : (fn tx 1).res with r | _
    · simp only [TransactionWithSerializable, bind_def, pure_def, bind_Begin, hb, bind_Exec, hs,
        Go.bind_val hf, Out.after_events]
      exact ⟨_, by simp only [List.append_assoc, List.cons_append, List.nil_append, List.singleton_append]; rfl⟩
    · exact ⟨[], by simp [TransactionWithSerializable, hb, hs, Go.bind_panicked hf]⟩

/-- Witness for C8: the isolation-level statement fails with `denied`. -/
theorem isolation_failure_rolls_back_and_panics_witness :
    (scriptedDB (some (0, .base "denied")) none).begin
      = .ok (scriptedTx (some (0, .base "denied")) none) ∧
    (TransactionWithSerializable (scriptedDB (some (0, .base "denied")) none) "DirtyRead" "Winner"
      (fun _ => Go.pure none) 0).res = .panicked :=
  ⟨rfl, ((isolation_failure_rolls_back_and_panics (scriptedDB (some (0, .base "denied")) none)
    "DirtyRead" "Winner" (fun _ => Go.pure none) (scriptedTx (some (0, .base "denied")) none)
    rfl).1 (.base "denied") rfl).1⟩

/-! ## The role functions -/

@[simp] theorem skel_nil : skel [] = [] := rfl

@[simp] theorem skel_append (a b : List Event) : skel (a ++ b) = skel a ++ skel b := by
  simp [skel, List.filterMap_append]

theorem skel_cons (e : Event) (es : List Event) :
    skel (e :: es) = (match e.op with | some o => o :: skel es | none => skel es) := by
  simp only [skel, List.filterMap_cons]
  cases e.op <;> rfl

@[simp] theorem chanOps_nil : chanOps [] = [] := rfl

@[simp] theorem chanOps_append (a b : List Event) : chanOps (a ++ b) = chanOps a ++ chanOps b := by
  simp [chanOps]

theorem chanOps_cons (e : Event) (es : List Event) :
    chanOps (e :: es) = (if e.isChan then e :: chanOps es else chanOps es) := by
  simp [chanOps, List.filter_cons]

set_option maxHeartbeats 2000000 in
theorem looser_spec (sc : Scenario) (tx : Tx) (n : Nat) :
    RoleSpec sc .looserReady .looserWriteDone tx n (sc.Looser tx .done n) := by
  unfold RoleSpec
  cases sc <;>
  simp only [Scenario.Looser, DirtyRead.Looser, PhantomRead.Looser, WriteSkew.Looser, bodyFate,
    bind_def, pure_def] <;>
  rcases h1 : tx.stmt n with _ | e1 <;>
  rcases h2 : tx.stmt (n + 1) with _ | e2 <;>
  rcases h3 : tx.stmt (n + 2) with _ | e3 <;>
  simp only [bind_Println, bind_QueryRowScan, bind_Printf, bind_chanSend, bind_chanRecv, bind_Exec,
    Go.pure_apply, Out.after_events, Out.after_res, h1, h2, h3, Nat.add_assoc, Nat.reduceAdd,
    List.cons_append, List.nil_append, List.singleton_append, NewDirtyRead, NewPhantomRead,
    NewWriteSkew, NewPatternBase, countAM] <;>
  simp [skel_cons, chanOps_cons, Event.op, Event.isChan, bodyShape, setIsolationLevel,
    Scenario.inReadPhase, noStmtAfterFailure, Event.isFailedStmt, Event.isStmt]

set_option maxHeartbeats 2000000 in
theorem winner_spec (sc : Scenario) (tx : Tx) (n : Nat) :
    RoleSpec sc .winnerReady .winnerWriteDone tx n (sc.Winner tx .done n) := by
  unfold RoleSpec
  cases sc <;>
  simp only [Scenario.Winner, DirtyRead.Winner, PhantomRead.Winner, WriteSkew.Winner, bodyFate,
    bind_def, pure_def] <;>
  rcases h1 : tx.stmt n with _ | e1 <;>
  rcases h2 : tx.stmt (n + 1) with _ | e2 <;>
  rcases h3 : tx.stmt (n + 2) with _ | e3 <;>
  simp only [bind_Println, bind_QueryRowScan, bind_Printf, bind_chanSend, bind_chanRecv, bind_Exec,
    Go.pure_apply, Out.after_events, Out.after_res, h1, h2, h3, Nat.add_assoc, Nat.reduceAdd,
    List.cons_append, List.nil_append, List.singleton_append, NewDirtyRead, NewPhantomRead,
    NewWriteSkew, NewPatternBase, countAM] <;>
  simp [skel_cons, chanOps_cons, Event.op, Event.isChan, bodyShape, setIsolationLevel,
    Scenario.inReadPhase, noStmtAfterFailure, Event.isFailedStmt, Event.isStmt]

/-- Claim C10. For each of the six role functions and every store script, with
`k` the first of the function's statements that fails: the channel operations
of the function are, in order, nothing (when `k` is a read-phase statement),
or the ready send and the proceed receive (when `k` is a write-phase
statement), or these two followed by the write-done send and the commit receive
(when no statement fails), and then one send on `done`; the function returns
nil exactly when no statement fails; no statement is issued after a failed one;
and the protocol operations come in the order of `bodyShape`: the read-phase
statements, the ready send, the proceed receive, the write-phase statements,
the write-done send, the commit receive, the send on `done`. -/
theorem role_channel_operations (sc : Scenario) (tx : Tx) (n : Nat) :
    RoleSpec sc .looserReady .looserWriteDone tx n (sc.Looser tx .done n) ∧
    RoleSpec sc .winnerReady .winnerWriteDone tx n (sc.Winner tx .done n) :=
  ⟨looser_spec sc tx n, winner_spec sc tx n⟩

/-! ## The role goroutines -/

/-- The serializable runner around a body that returns: result and events. -/
theorem runner_run (db : DB) (pn en : String) (fn : Tx → Go (Option GoError)) (tx : Tx)
    (r : Option GoError) (hb : db.begin = .ok tx) (h0 : tx.stmt 0 = none)
    (hf : (fn tx 1).res = .val r) :
    ∃ tail, (TransactionWithSerializable db pn en fn 0).res
        = .val (errors.WithStack (r.orElse fun _ => tx.commit)) ∧
      (TransactionWithSerializable db pn en fn 0).events
        = [.begin none, .exec setIsolationLevel [] none] ++ (fn tx 1).events ++ tail ∧
      skel tail = [if r.isSome then .rollback else .commit] := by
  simp only [TransactionWithSerializable, bind_def, pure_def, bind_Begin, hb, bind_Exec, h0,
    Go.bind_val hf, Out.after_res, Out.after_events]
  rcases r with _ | e
  · rcases hc : tx.commit with _ | c
    · exact ⟨[.commit none], by simp [hc, errors.WithStack, skel_cons, Event.op]⟩
    · exact ⟨[.commit (some c), .log "[%s:%s] Failed to commit transaction: %v" [pn, en, c.Error]],
        by simp [hc, errors.WithStack, skel_cons, Event.op]⟩
  · rcases hr : tx.rollback with _ | c
    · exact ⟨[.rollback none,
        .log "[%s:%s] Transaction function returned error: %v" [pn, en, e.Error]],
        by simp [hr, errors.WithStack, skel_cons, Event.op]⟩
    · exact ⟨[.rollback (some c),
        .log "[%s:%s] Failed to rollback transaction: %v" [pn, en, c.Error],
        .log "[%s:%s] Transaction function returned error: %v" [pn, en, e.Error]],
        by simp [hr, errors.WithStack, skel_cons, Event.op]⟩

/-- The protocol operations of a goroutine body that logs, runs the
serializable runner and logs its error, for a role function that returns. -/
theorem goroutine_skel (db : DB) (pn en : String) (fn : Tx → Go (Option GoError))
    (line : String) (g : Option GoError → Go Unit)
    (hg : ∀ x n, skel (g x n).events = [])
    (hfn : ∀ tx, ∃ r, (fn tx 1).res = .val r ∧ (r = none ↔ bodyFate tx 1 = none)) :
    skel ((Go.bind (log.Println line)
        (fun _ => Go.bind (TransactionWithSerializable db pn en fn) g)) 0).events
      = match db.begin with
        | .error _ => [.begin]
        | .ok tx =>
          if (tx.stmt 0).isSome then [.begin, .setIso, .rollback, .panic]
          else [.begin, .setIso] ++ skel (fn tx 1).events
            ++ [if (bodyFate tx 1).isSome then .rollback else .commit] := by
  rcases hb : db.begin with e | tx
  · have h : (TransactionWithSerializable db pn en fn 0).res = .val (some (.withStack e)) := by
      simp [TransactionWithSerializable, hb, errors.WithStack]
    simp only [bind_Println, Out.after_events, Go.bind_val h, skel_append, hg]
    simp [TransactionWithSerializable, hb, skel_cons, Event.op]
  · rcases h0 : tx.stmt 0 with _ | e0
    · obtain ⟨r, hr, hiff⟩ := hfn tx
      obtain ⟨tail, h1, h2, h3⟩ := runner_run db pn en fn tx r hb h0 hr
      simp only [bind_Println, Out.after_events, Go.bind_val h1, skel_append, hg, h2, h3]
      rcases r with _ | e
      · have := hiff.1 rfl
        simp [skel_cons, Event.op, this, setIsolationLevel, h0]
      · have : bodyFate tx 1 ≠ none := fun h => by simpa using hiff.2 h
        rcases hk : bodyFate tx 1 with _ | k
        · exact absurd hk this
        · simp [skel_cons, Event.op, setIsolationLevel, h0]
    · have h : (TransactionWithSerializable db pn en fn 0).res = .panicked := by
        rcases hr : tx.rollback with _ | re <;> simp [TransactionWithSerializable, hb, h0, hr]
      simp only [bind_Println, Out.after_events, Go.bind_panicked h, skel_append]
      rcases hr : tx.rollback with _ | re <;>
        simp [TransactionWithSerializable, hb, h0, hr, skel_cons, Event.op, setIsolationLevel]

/-- The protocol operations of a role goroutine are those of its fate. -/
theorem roleCode_skel (sc : Scenario) (t : Tid) (ht : t ≠ .main) (db : DB) :
    skel (sc.roleCode t db) = roleShape sc t.ready t.writeDone (fateOf db) := by
  cases t with
  | main => exact absurd rfl ht
  | looser =>
    simp only [Scenario.roleCode, PatternBase.looserGoroutine, bind_def]
    refine Eq.trans (goroutine_skel db sc.base.patternName "Looser" (fun tx => sc.Looser tx .done)
      "Looser: Starting..." _ ?_ (fun tx => (looser_spec sc tx 1).2.2.1)) ?_
    · intro x n
      cases x <;> simp [skel_cons, Event.op]
    · unfold fateOf
      rcases db.begin with e | tx
      · rfl
      · simp only [Tid.ready, Tid.writeDone]
        rcases h0 : (tx.stmt 0).isSome
        · simp only [(looser_spec sc tx 1).1]
          cases bodyFate tx 1 <;> simp [roleShape]
        · simp [roleShape]
  | winner =>
    simp only [Scenario.roleCode, PatternBase.winnerGoroutine, bind_def]
    refine Eq.trans (goroutine_skel db sc.base.patternName "Winner" (fun tx => sc.Winner tx .done)
      "Winner: Starting..." _ ?_ (fun tx => (winner_spec sc tx 1).2.2.1)) ?_
    · intro x n
      cases x <;> simp [skel_cons, Event.op]
    · unfold fateOf
      rcases db.begin with e | tx
      · rfl
      · simp only [Tid.ready, Tid.writeDone]
        rcases h0 : (tx.stmt 0).isSome
        · simp only [(winner_spec sc tx 1).1]
          cases bodyFate tx 1 <;> simp [roleShape]
        · simp [roleShape]

/-! ## Skeletons and events -/

theorem mem_skel {o : Op} {es : List Event} : o ∈ skel es ↔ ∃ e ∈ es, e.op = some o := by
  simp [skel, List.mem_filterMap]

theorem op_send {e : Event} {c : Chan} (h : e.op = some (.send c)) : e = .send c := by
  cases e <;> simp [Event.op] at h
  · split at h <;> simp at h
  · exact congrArg _ h

theorem op_recv {e : Event} {c : Chan} (h : e.op = some (.recv c)) : e = .recv c := by
  cases e <;> simp [Event.op] at h
  · split at h <;> simp at h
  · exact congrArg _ h

theorem op_close {e : Event} {c : Chan} (h : e.op = some (.close c)) : e = .close c := by
  cases e <;> simp [Event.op] at h
  · split at h <;> simp at h
  · exact congrArg _ h

theorem op_go {e : Event} {t : Tid} (h : e.op = some (.go t)) : e = .go t := by
  cases e <;> simp [Event.op] at h
  · split at h <;> simp at h
  · exact congrArg _ h

theorem op_panic {e : Event} (h : e.op = some .panic) : ∃ f a, e = .panic f a := by
  cases e <;> simp [Event.op] at h
  · split at h <;> simp at h
  · exact ⟨_, _, rfl⟩

theorem op_ret {e : Event} (h : e.op = some .ret) : ∃ f, e = .ret f := by
  cases e <;> simp [Event.op] at h
  · split at h <;> simp at h
  · exact ⟨_, rfl⟩

/-- Counting an event whose protocol content determines it. -/
theorem count_skel (e : Event) (o : Op) (ho : e.op = some o)
    (hinj : ∀ x : Event, x.op = some o → x = e) (es : List Event) :
    es.count e = (skel es).count o := by
  induction es with
  | nil => rfl
  | cons x xs ih =>
    rw [skel_cons, List.count_cons, ih]
    rcases hx : x.op with _ | p
    · have : x ≠ e := fun h => by rw [h, ho] at hx; exact Option.noConfusion hx
      simp [this]
    · by_cases hp : p = o
      · subst hp
        simp [List.count_cons, hinj x hx]
      · have : x ≠ e := fun h => by
          rw [h, ho] at hx
          exact hp (Option.some.inj hx).symm
        simp [List.count_cons, this, hp]

theorem count_send_skel (c : Chan) (es : List Event) :
    es.count (.send c) = (skel es).count (.send c) :=
  count_skel (.send c) (.send c) rfl (fun _ h => op_send h) es

theorem count_go_skel (t : Tid) (es : List Event) :
    es.count (.go t) = (skel es).count (.go t) :=
  count_skel (.go t) (.go t) rfl (fun _ h => op_go h) es

theorem count_close_skel (c : Chan) (es : List Event) :
    es.count (.close c) = (skel es).count (.close c) :=
  count_skel (.close c) (.close c) rfl (fun _ h => op_close h) es

/-- Claim C1, amended. For every scenario and role, when `Begin` and the
isolation-level statement succeed, the goroutine of the role sends exactly one
value on `done` on its way to its end, whatever the reads, the write, `Commit`
and `Rollback` return. When the isolation-level statement fails the goroutine
panics and has sent nothing on `done`. -/
theorem role_goroutine_sends_done_once (sc : Scenario) (t : Tid) (ht : t ≠ .main)
    (db : DB) (tx : Tx) (hb : db.begin = .ok tx) :
    (tx.stmt 0 = none → (sc.roleCode t db).count (.send .done) = 1) ∧
    (∀ e, tx.stmt 0 = some e →
      (sc.roleCode t db).count (.send .done) = 0 ∧
      ∃ f a, Event.panic f a ∈ sc.roleCode t db) := by
  have hs := roleCode_skel sc t ht db
  refine ⟨fun h0 => ?_, fun e h0 => ⟨?_, ?_⟩⟩
  · rw [count_send_skel, hs]
    simp only [fateOf, hb, h0, Option.isSome_none, Bool.false_eq_true, if_false]
    cases sc <;> cases t <;> cases bodyFate tx 1 <;> first | rfl | (rename_i k; cases k <;> rfl)
  · rw [count_send_skel, hs]
    simp [fateOf, hb, h0, roleShape]
  · have : Op.panic ∈ skel (sc.roleCode t db) := by
      rw [hs]
      simp [fateOf, hb, h0, roleShape]
    obtain ⟨x, hx, hop⟩ := mem_skel.1 this
    obtain ⟨f, a, rfl⟩ := op_panic hop
    exact ⟨f, a, hx⟩

/-- Witness for C1: the looser of `WriteSkew` on a store whose second read
fails sends exactly once on `done`. -/
theorem role_goroutine_sends_done_once_witness :
    (scriptedDB (some (2, .base "read failed")) none).begin
      = .ok (scriptedTx (some (2, .base "read failed")) none) ∧
    (Scenario.roleCode .writeSkew .looser
      (scriptedDB (some (2, .base "read failed")) none)).count (.send .done) = 1 :=
  ⟨rfl, (role_goroutine_sends_done_once .writeSkew .looser (by decide)
    (scriptedDB (some (2, .base "read failed")) none)
    (scriptedTx (some (2, .base "read failed")) none) rfl).1 rfl⟩

/-- Counterexample to C1 as stated: the isolation-level statement of the
looser of `DirtyRead` fails; the goroutine rolls back and panics, and its run
contains no send on `done`. -/
theorem isolation_failure_sends_no_completion_signal :
    (Scenario.roleCode .dirtyRead .looser (scriptedDB (some (0, .base "denied")) none)).count
      (.send .done) = 0 ∧
    (Scenario.roleCode .dirtyRead .looser (scriptedDB (some (0, .base "denied")) none)).getLast?
      = some (.panic "[%s:%s] Failed to set transaction isolation level: %v"
          ["DirtyRead", "Looser", "denied"]) := by
  decide

/-! ## `PatternBase.Do` and `invoke` -/

/-- Claim C3. When `sql.Open` fails for `db1`, or succeeds for `db1` and fails
for `db2`, `PatternBase.Do` logs, sends twice on `done` and returns; in the
second case the deferred `db1.Close()` runs before the return. It starts no
goroutine, so no role function runs and no transaction begins, and it performs
no operation on the six barrier channels. On a `done` channel that is empty
with capacity 2 neither send blocks: the main goroutine performs the whole
sequence on its own and leaves two values in the channel. -/
theorem do_short_circuits_when_open_fails (pg : Driver) (b : PatternBase) (db : DB)
    (looserFn winnerFn : Tx → Chan → Go (Option GoError)) :
    (∀ e, pg.sqlOpen .db1 = .error e →
      b.Do pg db .done looserFn winnerFn 0
        = ⟨.val (), [.log "Orchestrator: Starting looser & winner..." [],
            .sqlOpen .db1 (some e),
            .log "**** Failed to create db1 connection: %v" [e.Error],
            .send .done, .send .done, .ret "Do"], 0, []⟩ ∧
      ∃ s, (Sys.init (b.Do pg db .done looserFn winnerFn 0)).exec
          (List.replicate 6 (.solo .main)) = some s ∧
        s.todo .main = [] ∧ s.buf .done = 2 ∧ s.crashed = false) ∧
    (∀ e d1, pg.sqlOpen .db1 = .ok d1 → pg.sqlOpen .db2 = .error e →
      b.Do pg db .done looserFn winnerFn 0
        = ⟨.val (), [.log "Orchestrator: Starting looser & winner..." [],
            .sqlOpen .db1 none, .sqlOpen .db2 (some e),
            .log "**** Failed to create db2 connection: %v" [e.Error],
            .send .done, .send .done, .dbClose .db1, .ret "Do"], 0, []⟩ ∧
      ∃ s, (Sys.init (b.Do pg db .done looserFn winnerFn 0)).exec
          (List.replicate 8 (.solo .main)) = some s ∧
        s.todo .main = [] ∧ s.buf .done = 2 ∧ s.crashed = false) := by
  constructor
  · intro e h1
    have hdo : b.Do pg db .done looserFn winnerFn 0
        = ⟨.val (), [.log "Orchestrator: Starting looser & winner..." [],
            .sqlOpen .db1 (some e),
            .log "**** Failed to create db1 connection: %v" [e.Error],
            .send .done, .send .done, .ret "Do"], 0, []⟩ := by
      simp [PatternBase.Do, h1, Out.after]
    refine ⟨hdo, ?_⟩
    rw [hdo]
    simp [Sys.exec, Sys.fire, Sys.init, Sys.perform, Sys.enabled, List.replicate, Chan.cap, Function.update]
  · intro e d1 h1 h2
    have hdo : b.Do pg db .done looserFn winnerFn 0
        = ⟨.val (), [.log "Orchestrator: Starting looser & winner..." [],
            .sqlOpen .db1 none, .sqlOpen .db2 (some e),
            .log "**** Failed to create db2 connection: %v" [e.Error],
            .send .done, .send .done, .dbClose .db1, .ret "Do"], 0, []⟩ := by
      simp [PatternBase.Do, h1, h2, Out.after]
    refine ⟨hdo, ?_⟩
    rw [hdo]
    simp [Sys.exec, Sys.fire, Sys.init, Sys.perform, Sys.enabled, List.replicate, Chan.cap, Function.update]

/-- Witness for C3: `sql.Open` fails for `db2` with `no route`. -/
theorem do_short_circuits_when_open_fails_witness :
    (failingDriver .db2 (.base "no route")).sqlOpen .db2 = .error (.base "no route") ∧
    (NewPatternBase connectionString "DirtyRead").Do (failingDriver .db2 (.base "no route"))
        (scriptedDB none none) .done (NewDirtyRead connectionString).Looser
        (NewDirtyRead connectionString).Winner 0
      = ⟨.val (), [.log "Orchestrator: Starting looser & winner..." [],
          .sqlOpen .db1 none, .sqlOpen .db2 (some (.base "no route")),
          .log "**** Failed to create db2 connection: %v" ["no route"],
          .send .done, .send .done, .dbClose .db1, .ret "Do"], 0, []⟩ :=
  ⟨rfl, ((do_short_circuits_when_open_fails (failingDriver .db2 (.base "no route"))
    (NewPatternBase connectionString "DirtyRead") (scriptedDB none none)
    (NewDirtyRead connectionString).Looser (NewDirtyRead connectionString).Winner).2
    (.base "no route") (scriptedDB none none) rfl rfl).1⟩

/-! ## Histories -/

@[simp] theorem proj_nil (t : Tid) : proj t [] = [] := rfl

@[simp] theorem proj_append (t : Tid) (a b : List (Tid × Event)) :
    proj t (a ++ b) = proj t a ++ proj t b := by
  simp [proj]

theorem proj_single (t u : Tid) (e : Event) :
    proj t [(u, e)] = if u = t then [e] else [] := by
  by_cases h : u = t <;> simp [proj, h]

theorem mem_proj {t : Tid} {e : Event} {h : List (Tid × Event)} :
    e ∈ proj t h ↔ (t, e) ∈ h := by
  simp only [proj, List.mem_map, List.mem_filter, decide_eq_true_eq]
  constructor
  · rintro ⟨⟨u, x⟩, ⟨hm, hu⟩, hx⟩
    simp only at hu hx
    subst hu; subst hx
    exact hm
  · intro hm
    exact ⟨(t, e), ⟨hm, rfl⟩, rfl⟩

@[simp] theorem occurrences_nil (e : Event) : occurrences e [] = 0 := rfl

@[simp] theorem occurrences_append (e : Event) (a b : List (Tid × Event)) :
    occurrences e (a ++ b) = occurrences e a + occurrences e b := by
  simp [occurrences]

theorem occurrences_single (e x : Event) (t : Tid) :
    occurrences e [(t, x)] = if x = e then 1 else 0 := by
  by_cases h : x = e <;> simp [occurrences, h]

theorem occurrences_pos {e : Event} {h : List (Tid × Event)} :
    0 < occurrences e h ↔ ∃ t, (t, e) ∈ h := by
  simp only [occurrences, List.countP_pos_iff, decide_eq_true_eq]
  constructor
  · rintro ⟨⟨t, x⟩, hm, hx⟩
    simp only at hx
    subst hx
    exact ⟨t, hm⟩
  · rintro ⟨t, hm⟩
    exact ⟨(t, e), hm, rfl⟩

theorem proj_cons (u t : Tid) (x : Event) (ps : List (Tid × Event)) :
    proj u ((t, x) :: ps) = if t = u then x :: proj u ps else proj u ps := by
  by_cases h : t = u <;> simp [proj, List.filter_cons, h]

theorem occurrences_cons (e x : Event) (t : Tid) (ps : List (Tid × Event)) :
    occurrences e ((t, x) :: ps) = (if x = e then 1 else 0) + occurrences e ps := by
  by_cases h : x = e
  · simp [occurrences, List.countP_cons, h]; omega
  · simp [occurrences, List.countP_cons, h]

theorem occurrences_eq_sum (e : Event) (h : List (Tid × Event)) :
    occurrences e h
      = (proj .main h).count e + (proj .looser h).count e + (proj .winner h).count e := by
  induction h with
  | nil => rfl
  | cons p ps ih =>
    obtain ⟨t, x⟩ := p
    rw [occurrences_cons, ih]
    cases t <;> by_cases hx : x = e <;>
      simp only [proj_cons, List.count_cons, hx, if_true, if_false, reduceCtorEq,
        beq_self_eq_true, beq_iff_eq] <;> omega

/-! ## Steps -/

/-- What a possible move is: a goroutine performing its next, enabled,
operation on its own, or a rendezvous on an open unbuffered channel. -/
theorem fire_cases {s s2 : Sys} {m : Move} (h : s.fire m = some s2) :
    (∃ t e rest, m = .solo t ∧ s.crashed = false ∧ s.todo t = e :: rest ∧
      s.enabled e = true ∧ s2 = s.perform t e rest) ∨
    (∃ a b c ra rb, m = .sync a b ∧ s.crashed = false ∧ a ≠ b ∧
      s.todo a = .send c :: ra ∧ s.todo b = .recv c :: rb ∧ c.cap = 0 ∧ s.closed c = false ∧
      s2 = { s with
        todo := Function.update (Function.update s.todo a ra) b rb
        hist := s.hist ++ [(a, .send c), (b, .recv c)] }) := by
  cases m with
  | solo t =>
    left
    simp only [Sys.fire] at h
    split at h
    · exact Option.noConfusion h
    · rename_i hc
      rcases hto : s.todo t with _ | ⟨e, rest⟩
      · rw [hto] at h; exact Option.noConfusion h
      · rw [hto] at h
        simp only at h
        split at h
        · rename_i hen
          exact ⟨t, e, rest, rfl, by simpa using hc, hto, hen, (Option.some.inj h).symm⟩
        · exact Option.noConfusion h
  | sync a b =>
    right
    simp only [Sys.fire] at h
    split at h
    · exact Option.noConfusion h
    · rename_i hc
      split at h
      · exact Option.noConfusion h
      · rename_i hab
        split at h
        · rename_i c ra c2 rb hta htb
          split at h
          · rename_i hcond
            obtain ⟨rfl, hcap, hcl⟩ := hcond
            exact ⟨a, b, c, ra, rb, rfl, by simpa using hc, hab, hta, htb, hcap, hcl,
              (Option.some.inj h).symm⟩
          · exact Option.noConfusion h
        · exact Option.noConfusion h
/-! ## Program order is invariant -/

theorem started_of_todo {s0 s : Sys} (hi : OrderInv s0 s) {t : Tid} {e : Event}
    {rest : List Event} (h : s.todo t = e :: rest) : s.started t := by
  by_contra hn
  have := (hi.idle t hn).2
  rw [h] at this
  exact List.noConfusion this

theorem perform_todo_of_not_go {s : Sys} {t : Tid} {e : Event} {rest : List Event}
    (hgo : ∀ v, e ≠ .go v) : (s.perform t e rest).todo = Function.update s.todo t rest := by
  cases e <;> first | rfl | exact absurd rfl (hgo _)

theorem OrderInv.advance {s0 s s2 : Sys} (hi : OrderInv s0 s) {t : Tid} {e : Event}
    {rest : List Event} (hto : s.todo t = e :: rest) (hgo : ∀ v, e ≠ .go v)
    (hcode : s2.code = s.code) (htodo : s2.todo = Function.update s.todo t rest)
    (hhist : s2.hist = s.hist ++ [(t, e)]) : OrderInv s0 s2 := by
  have hst : ∀ u, s2.started u ↔ s.started u := by
    intro u
    simp only [Sys.started, hhist, List.mem_append, List.mem_singleton, Prod.mk.injEq]
    constructor
    · rintro (h | h | ⟨_, h⟩)
      · exact Or.inl h
      · exact Or.inr h
      · exact absurd h.symm (hgo u)
    · rintro (h | h)
      · exact Or.inl h
      · exact Or.inr (Or.inl h)
  have htne : ∀ u, ¬ s.started u → u ≠ t := by
    intro u hu hut
    subst hut
    exact hu (started_of_todo hi hto)
  refine ⟨hcode.trans hi.code_eq, fun u hu => ?_, fun u hu => ?_⟩
  · have hs := (hst u).1 hu
    by_cases hut : u = t
    · subst hut
      rw [hhist, proj_append, proj_single, if_pos rfl, htodo, Function.update_same, hcode,
        List.append_assoc, ← hi.order u hs, hto]
      rfl
    · rw [hhist, proj_append, proj_single, if_neg (fun h => hut h.symm), htodo,
        Function.update_noteq hut, hcode, List.append_nil]
      exact hi.order u hs
  · have hs : ¬ s.started u := fun h => hu ((hst u).2 h)
    have hut := htne u hs
    rw [hhist, proj_append, proj_single, if_neg (fun h => hut h.symm), htodo,
      Function.update_noteq hut, List.append_nil]
    exact hi.idle u hs

theorem OrderInv.spawn {s0 s s2 : Sys} (hwf : WellFormed s0.code) (hi : OrderInv s0 s)
    {t v : Tid} {rest : List Event} (hto : s.todo t = .go v :: rest)
    (hcode : s2.code = s.code)
    (htodo : s2.todo = Function.update (Function.update s.todo t rest) v (s.code v))
    (hhist : s2.hist = s.hist ++ [(t, .go v)]) : OrderInv s0 s2 := by
  have hts := started_of_todo hi hto
  have hord := hi.order t hts
  rw [hto] at hord
  have hmem : Event.go v ∈ s.code t := by
    rw [← hord]; simp
  rw [hi.code_eq] at hmem
  have htm : t = .main := by
    by_contra hne
    exact hwf.go_role t v hne hmem
  subst htm
  have hvm : v ≠ .main := by
    intro h
    subst h
    exact hwf.go_main _ hmem
  have hnot : (Tid.main, Event.go v) ∉ s.hist := by
    intro hin
    have h1 : 0 < (proj .main s.hist).count (.go v) := List.count_pos_iff.2 (mem_proj.2 hin)
    have h2 := hwf.go_once v
    rw [← hi.code_eq, ← hord, List.count_append, List.count_cons_self] at h2
    omega
  have hvs : ¬ s.started v := by
    rintro (h | h)
    · exact hvm h
    · exact hnot h
  have hidle := hi.idle v hvs
  have hst : ∀ u, s2.started u ↔ (s.started u ∨ u = v) := by
    intro u
    simp only [Sys.started, hhist, List.mem_append, List.mem_singleton, Prod.mk.injEq,
      Event.go.injEq, true_and]
    constructor
    · rintro (h | h | h)
      · exact Or.inl (Or.inl h)
      · exact Or.inl (Or.inr h)
      · exact Or.inr h
    · rintro ((h | h) | h)
      · exact Or.inl h
      · exact Or.inr (Or.inl h)
      · exact Or.inr (Or.inr h)
  refine ⟨hcode.trans hi.code_eq, fun u hu => ?_, fun u hu => ?_⟩
  · by_cases huv : u = v
    · subst huv
      rw [hhist, proj_append, proj_single, if_neg (fun h => hvm h.symm), htodo,
        Function.update_same, hcode, hidle.1]
      rfl
    · have hs : s.started u := ((hst u).1 hu).resolve_right huv
      by_cases hum : u = .main
      · subst hum
        rw [hhist, proj_append, proj_single, if_pos rfl, htodo, Function.update_noteq huv,
          Function.update_same, hcode, List.append_assoc, ← hord]
        rfl
      · rw [hhist, proj_append, proj_single, if_neg (fun h => hum h.symm), htodo,
          Function.update_noteq huv, Function.update_noteq hum, hcode, List.append_nil]
        exact hi.order u hs
  · have hs : ¬ s.started u := fun h => hu ((hst u).2 (Or.inl h))
    have huv : u ≠ v := fun h => hu ((hst u).2 (Or.inr h))
    have hum : u ≠ .main := fun h => hs (Or.inl h)
    rw [hhist, proj_append, proj_single, if_neg (fun h => hum h.symm), htodo,
      Function.update_noteq huv, Function.update_noteq hum, List.append_nil]
    exact hi.idle u hs

theorem orderInv_step {s0 s s2 : Sys} (hwf : WellFormed s0.code) (hi : OrderInv s0 s)
    {m : Move} (hf : s.fire m = some s2) : OrderInv s0 s2 := by
  rcases fire_cases hf with ⟨t, e, rest, -, -, hto, -, rfl⟩ | ⟨a, b, c, ra, rb, -, -, hab, hta, htb, -, -, rfl⟩
  · by_cases hgo : ∃ v, e = .go v
    · obtain ⟨v, rfl⟩ := hgo
      exact hi.spawn hwf hto rfl rfl rfl
    · have hgo2 : ∀ v, e ≠ .go v := fun v h => hgo ⟨v, h⟩
      exact hi.advance hto hgo2 rfl (perform_todo_of_not_go hgo2) rfl
  · have h1 : OrderInv s0 { s with
        todo := Function.update s.todo a ra, hist := s.hist ++ [(a, .send c)] } :=
      hi.advance hta (fun v h => Event.noConfusion h) rfl rfl rfl
    refine @OrderInv.advance _ _ _ h1 b (.recv c) rb ?_ (fun v h => Event.noConfusion h)
      rfl rfl ?_
    · show Function.update s.todo a ra b = _
      rw [Function.update_noteq (fun h => hab h.symm)]
      exact htb
    · show s.hist ++ [(a, .send c), (b, .recv c)] = (s.hist ++ [(a, .send c)]) ++ [(b, .recv c)]
      simp

theorem orderInv_init (o : Out Unit) : OrderInv (Sys.init o) (Sys.init o) := by
  refine ⟨rfl, fun t ht => ?_, fun t ht => ?_⟩
  · rcases ht with rfl | h
    · simp [Sys.init]
    · simp [Sys.init] at h
  · have : t ≠ .main := fun h => ht (Or.inl h)
    simp [Sys.init, this]

/-! ## The channel state agrees with the history -/

theorem chanInv_init (o : Out Unit) : ChanInv (Sys.init o) := by
  refine ⟨fun c h => ?_, fun c _ => ?_, fun c => ?_, fun h => ?_⟩
  · simp [Sys.init] at h
  · simp [Sys.init]
  · simp [Sys.init]
  · simp [Sys.init] at h

theorem ChanInv.solo {s : Sys} (hi : ChanInv s) {t : Tid} {e : Event} {rest : List Event}
    (hen : s.enabled e = true) : ChanInv (s.perform t e rest) := by
  have hmono : ∀ x, x ∈ s.hist → x ∈ (s.perform t e rest).hist := by
    intro x hx
    simp [Sys.perform, hx]
  have hnew : (t, e) ∈ (s.perform t e rest).hist := by simp [Sys.perform]
  have hocc : ∀ x, occurrences x (s.perform t e rest).hist
      = occurrences x s.hist + (if e = x then 1 else 0) := by
    intro x
    simp [Sys.perform, occurrences_single]
  refine ⟨fun c h => ?_, fun c h => ?_, fun c => ?_, fun h => ?_⟩
  · by_cases hcl : s.closed c = true
    · obtain ⟨u, hu⟩ := hi.closed_hist c hcl
      exact ⟨u, hmono _ hu⟩
    · cases e <;> simp only [Sys.perform] at h <;> try exact absurd h hcl
      rename_i c2
      by_cases hcc : c = c2
      · subst hcc; exact ⟨t, hnew⟩
      · rw [Function.update_noteq hcc] at h
        exact absurd h hcl
  · rw [hocc, hocc]
    cases e <;> simp only [Sys.perform] at h ⊢ <;>
      simp only [reduceCtorEq, if_false, Nat.add_zero] <;>
      try exact hi.counts c h
    · rename_i c2
      by_cases hcc : c2 = c
      · subst hcc
        simp [h, ← hi.counts c2 h]
        omega
      · have : s.closed c2 = true ∨ s.closed c2 = false := by cases s.closed c2 <;> simp
        rcases this with h2 | h2
        · simp [hcc, h2, hi.counts c h]
        · simp [hcc, h2, hi.counts c h, Function.update_noteq (Ne.symm hcc)]
    · rename_i c2
      by_cases hcc : c2 = c
      · subst hcc
        simp only [Sys.enabled, h, Bool.or_false, decide_eq_true_eq] at hen
        simp [hen, ← hi.counts c2 h]
        omega
      · by_cases hb : 0 < s.buf c2
        · simp [hcc, hb, hi.counts c h, Function.update_noteq (Ne.symm hcc)]
        · simp [hcc, hb, hi.counts c h]
    · rename_i c2
      by_cases hcc : c = c2
      · subst hcc; simp at h
      · rw [Function.update_noteq hcc] at h
        exact hi.counts c h
  · have hb := hi.buf_cap c
    cases e <;> simp only [Sys.perform] <;> try exact hb
    · rename_i c2
      by_cases h2 : s.closed c2 = true
      · simp [h2, hb]
      · simp only [h2, if_false, Bool.false_eq_true]
        by_cases hcc : c = c2
        · subst hcc
          simp only [Sys.enabled, Bool.or_eq_true, decide_eq_true_eq] at hen
          rw [Function.update_same]
          rcases hen with h3 | h3
          · exact absurd h3 h2
          · omega
        · rw [Function.update_noteq hcc]; exact hb
    · rename_i c2
      by_cases h2 : 0 < s.buf c2
      · simp only [h2, if_true]
        by_cases hcc : c = c2
        · subst hcc; rw [Function.update_same]; omega
        · rw [Function.update_noteq hcc]; exact hb
      · simp [h2, hb]
  · cases e
    case send c2 =>
      have h : s.closed c2 = true := h
      obtain ⟨u, hu⟩ := hi.closed_hist c2 h
      exact Or.inr (Or.inl ⟨t, u, c2, hnew, hmono _ hu⟩)
    case close c2 =>
      have h : s.closed c2 = true := h
      obtain ⟨u, hu⟩ := hi.closed_hist c2 h
      have : 0 < occurrences (.close c2) s.hist := occurrences_pos.2 ⟨u, hu⟩
      refine Or.inr (Or.inr ⟨c2, ?_⟩)
      rw [hocc, if_pos rfl]
      omega
    case panic f a =>
      exact Or.inl ⟨t, f, a, hnew⟩
    all_goals exact Bool.noConfusion h

theorem chanInv_step {s s2 : Sys} (hi : ChanInv s) {m : Move} (hf : s.fire m = some s2) :
    ChanInv s2 := by
  rcases fire_cases hf with ⟨t, e, rest, -, -, -, hen, rfl⟩ |
    ⟨a, b, c, ra, rb, -, hc, -, -, -, -, hcl, rfl⟩
  · exact hi.solo hen
  · refine ⟨fun c2 h => ?_, fun c2 h => ?_, fun c2 => hi.buf_cap c2, fun h => ?_⟩
    · obtain ⟨u, hu⟩ := hi.closed_hist c2 h
      exact ⟨u, by simp [hu]⟩
    · have := hi.counts c2 h
      simp only [occurrences_append] at this ⊢
      have h1 : occurrences (.recv c2) [(a, Event.send c), (b, Event.recv c)]
          = if c = c2 then 1 else 0 := by
        by_cases hcc : c = c2 <;> simp [occurrences, hcc]
      have h2 : occurrences (.send c2) [(a, Event.send c), (b, Event.recv c)]
          = if c = c2 then 1 else 0 := by
        by_cases hcc : c = c2 <;> simp [occurrences, hcc]
      show occurrences (.recv c2) s.hist + _ + s.buf c2 = occurrences (.send c2) s.hist + _
      rw [h1, h2]
      omega
    · exact absurd h (by simp [hc])

/-! ## Reachable states -/

theorem reachable_inv {o : Out Unit} (hwf : WellFormed (Sys.init o).code) {s : Sys}
    (h : Reachable (Sys.init o) s) : OrderInv (Sys.init o) s ∧ ChanInv s := by
  induction h with
  | start => exact ⟨orderInv_init o, chanInv_init o⟩
  | step m _ hf ih => exact ⟨orderInv_step hwf ih.1 hf, chanInv_step ih.2 hf⟩

theorem reachable_of_exec {s0 : Sys} (ms : List Move) :
    ∀ {s1 s : Sys}, Reachable s0 s1 → s1.exec ms = some s → Reachable s0 s := by
  induction ms with
  | nil =>
    intro s1 s h1 he
    simp only [Sys.exec, Option.some.injEq] at he
    exact he ▸ h1
  | cons m ms ih =>
    intro s1 s h1 he
    simp only [Sys.exec] at he
    rcases hf : s1.fire m with _ | s2
    · rw [hf] at he; exact Option.noConfusion he
    · rw [hf] at he
      exact ih (Reachable.step m h1 hf) he

theorem split_snoc {α : Type} {l h1 h2 : List α} {x y : α} (h : l ++ [x] = h1 ++ y :: h2) :
    (h1 = l ∧ y = x ∧ h2 = []) ∨ ∃ h3, l = h1 ++ y :: h3 ∧ h2 = h3 ++ [x] := by
  rcases List.eq_nil_or_concat h2 with rfl | ⟨h3, z, rfl⟩
  · left
    have := List.append_inj' h rfl
    simp only [List.cons.injEq, and_true] at this
    exact ⟨this.1.symm, this.2.symm, rfl⟩
  · right
    have h' : l ++ [x] = (h1 ++ y :: h3) ++ [z] := by simpa using h
    have := List.append_inj' h' rfl
    simp only [List.cons.injEq, and_true] at this
    exact ⟨h3, this.1, by rw [this.2, List.concat_eq_append]⟩

/-- Every operation in the history of a reachable state was performed from a
reachable state in which it was the next operation of its goroutine; the
history of that state is what precedes the operation, up to the send the
operation synchronised with when it is the receive of a rendezvous. -/
theorem reachable_split {s0 : Sys} (h0 : s0.hist = []) {s : Sys} (h : Reachable s0 s)
    {h1 h2 : List (Tid × Event)} {t : Tid} {e : Event} (hs : s.hist = h1 ++ (t, e) :: h2) :
    ∃ s1 rest, Reachable s0 s1 ∧ s1.todo t = e :: rest ∧ s1.crashed = false ∧
      (h1 = s1.hist ∨ ∃ a c, h1 = s1.hist ++ [(a, .send c)] ∧ e = .recv c) := by
  induction h generalizing h1 h2 with
  | start =>
    rw [h0] at hs
    exact absurd hs (by simp)
  | @step s s2 m hr hf ih =>
    rcases fire_cases hf with ⟨u, x, rest, -, hc, hto, -, rfl⟩ |
      ⟨a, b, c, ra, rb, -, hc, -, hta, htb, -, -, rfl⟩
    · have hs' : s.hist ++ [(u, x)] = h1 ++ (t, e) :: h2 := hs
      rcases split_snoc hs' with ⟨rfl, hx, -⟩ | ⟨h3, hl, -⟩
      · simp only [Prod.mk.injEq] at hx
        obtain ⟨rfl, rfl⟩ := hx
        exact ⟨s, rest, hr, hto, hc, Or.inl rfl⟩
      · exact ih hl
    · have hs' : (s.hist ++ [(a, .send c)]) ++ [(b, .recv c)] = h1 ++ (t, e) :: h2 := by
        rw [← hs]; simp
      rcases split_snoc hs' with ⟨rfl, hx, -⟩ | ⟨h3, hl, -⟩
      · simp only [Prod.mk.injEq] at hx
        obtain ⟨rfl, rfl⟩ := hx
        exact ⟨s, rb, hr, htb, hc, Or.inr ⟨a, c, rfl, rfl⟩⟩
      · rcases split_snoc hl with ⟨rfl, hx, -⟩ | ⟨h4, hl2, -⟩
        · simp only [Prod.mk.injEq] at hx
          obtain ⟨rfl, rfl⟩ := hx
          exact ⟨s, ra, hr, hta, hc, Or.inl rfl⟩
        · exact ih hl2

/-! ## Gates -/

theorem gated_split {g o : Op} : ∀ {l a b : List Op}, gated g o l = true → l = a ++ o :: b → g ∈ a
  | [], a, b, _, h => by simp at h
  | x :: xs, [], b, hg, h => by
    simp only [List.nil_append, List.cons.injEq] at h
    simp [gated, h.1] at hg
  | x :: xs, y :: a, b, hg, h => by
    simp only [List.cons_append, List.cons.injEq] at h
    obtain ⟨rfl, hxs⟩ := h
    simp only [gated] at hg
    split at hg
    · exact Bool.noConfusion hg
    · split at hg
      · rename_i hxg
        simp [hxg]
      · exact List.mem_cons_of_mem _ (gated_split hg hxs)

theorem gate_list {g o : Op} {code a b : List Event} {e : Event} (hcode : code = a ++ e :: b)
    (he : e.op = some o) (hg : gated g o (skel code) = true) : ∃ x ∈ a, x.op = some g := by
  have : skel code = skel a ++ o :: skel b := by
    rw [hcode, skel_append, skel_cons, he]
  exact mem_skel.1 (gated_split hg this)

theorem did_mem_code {s0 s : Sys} (hi : OrderInv s0 s) {t : Tid} {e : Event}
    (h : (t, e) ∈ s.hist) : e ∈ s.code t := by
  have hp := mem_proj.2 h
  by_cases hs : s.started t
  · rw [← hi.order t hs]
    exact List.mem_append_left _ hp
  · rw [(hi.idle t hs).1] at hp
    exact absurd hp (List.not_mem_nil _)

theorem todo_mem_code {s0 s : Sys} (hi : OrderInv s0 s) {t : Tid} {e : Event}
    {rest : List Event} (h : s.todo t = e :: rest) : e ∈ s.code t := by
  rw [← hi.order t (started_of_todo hi h), h]
  simp

/-- A goroutine about to perform an operation has performed its gate. -/
theorem gate_todo {s0 s : Sys} (hi : OrderInv s0 s) {t : Tid} {e : Event} {rest : List Event}
    {g o : Op} (h : s.todo t = e :: rest) (he : e.op = some o)
    (hg : gated g o (skel (s.code t)) = true) : ∃ x, x.op = some g ∧ (t, x) ∈ s.hist := by
  have hord := hi.order t (started_of_todo hi h)
  rw [h] at hord
  obtain ⟨x, hx, hxo⟩ := gate_list hord.symm he hg
  exact ⟨x, hxo, mem_proj.1 hx⟩

/-- A goroutine that has performed an operation has performed its gate. -/
theorem gate_hist {s0 s : Sys} (hi : OrderInv s0 s) {t : Tid} {e : Event}
    {g o : Op} (h : (t, e) ∈ s.hist) (he : e.op = some o)
    (hg : gated g o (skel (s.code t)) = true) : ∃ x, x.op = some g ∧ (t, x) ∈ s.hist := by
  have hp := mem_proj.2 h
  have hs : s.started t := by
    by_contra hn
    rw [(hi.idle t hn).1] at hp
    exact absurd hp (List.not_mem_nil _)
  obtain ⟨a, b, hab⟩ := List.append_of_mem hp
  have hord := hi.order t hs
  rw [hab, List.append_assoc, List.cons_append] at hord
  obtain ⟨x, hx, hxo⟩ := gate_list hord.symm he hg
  exact ⟨x, hxo, mem_proj.1 (by rw [hab]; exact List.mem_append_left _ hx)⟩

/-- A receive that has happened was served by a send or by a close. -/
theorem recv_cause {s : Sys} (hi : ChanInv s) {t : Tid} {c : Chan}
    (h : (t, Event.recv c) ∈ s.hist) :
    (∃ u, (u, Event.send c) ∈ s.hist) ∨ (∃ u, (u, Event.close c) ∈ s.hist) := by
  rcases hcl : s.closed c with _ | _
  · left
    have := hi.counts c hcl
    have hpos : 0 < occurrences (.recv c) s.hist := occurrences_pos.2 ⟨t, h⟩
    exact occurrences_pos.1 (by omega)
  · exact Or.inr (hi.closed_hist c hcl)

/-- A send on an unbuffered channel that has happened met a receive, or hit a
closed channel. -/
theorem send_cause {s : Sys} (hi : ChanInv s) {t : Tid} {c : Chan} (hcap : c.cap = 0)
    (h : (t, Event.send c) ∈ s.hist) :
    (∃ u, (u, Event.recv c) ∈ s.hist) ∨ (∃ u, (u, Event.close c) ∈ s.hist) := by
  rcases hcl : s.closed c with _ | _
  · left
    have := hi.counts c hcl
    have hb := hi.buf_cap c
    have hpos : 0 < occurrences (.send c) s.hist := occurrences_pos.2 ⟨t, h⟩
    exact occurrences_pos.1 (by omega)
  · exact Or.inr (hi.closed_hist c hcl)

/-! ## The shape of a run -/

theorem mem_allFates (f : Fate) : f ∈ allFates := by
  rcases f with _ | _ | k | _ <;> try decide
  cases k <;> decide

theorem mem_allSysFates (f : SysFate) : f ∈ allSysFates := by
  rcases f with _ | _ | ⟨fl, fw⟩
  · decide
  · decide
  · simp only [allSysFates, List.mem_append, List.mem_flatMap, List.mem_map]
    exact Or.inr ⟨fl, mem_allFates fl, fw, mem_allFates fw, rfl⟩

theorem allShapes_spec {p : (Tid → List Op) → Bool} (h : allShapes p = true)
    (sc : Scenario) (f : SysFate) : p (sysShape sc f) = true := by
  simp only [allShapes, List.all_eq_true] at h
  exact h sc (by cases sc <;> decide) f (mem_allSysFates f)

/-- The goroutines `Do` starts run the role code of the scenario. -/
theorem run_spawned (sc : Scenario) (pg : Driver) (db : DB) (d1 d2 : DB)
    (h0 : pg.sqlOpen .db = .ok db) (he0 : db.exec 0 = none) (he1 : db.exec 1 = none)
    (h1 : pg.sqlOpen .db1 = .ok d1) (h2 : pg.sqlOpen .db2 = .ok d2) :
    (sc.run pg).spawned = [(.looser, sc.roleCode .looser d1), (.winner, sc.roleCode .winner d2)] := by
  cases sc <;>
    simp [Scenario.run, invoke, Scenario.Do, DirtyRead.Do, PhantomRead.Do, WriteSkew.Do,
      PatternBase.Do, h0, he0, he1, h1, h2, Scenario.roleCode, Scenario.base, Scenario.Looser,
      Scenario.Winner, Go.bind_assoc]

theorem run_code_skel (sc : Scenario) (pg : Driver) (t : Tid) :
    skel ((Sys.init (sc.run pg)).code t) = sysShape sc (sysFate pg) t := by
  unfold sysFate
  rcases h0 : pg.sqlOpen .db with e | db
  · cases t <;> simp [Sys.init, Scenario.run, invoke, h0, sysShape, mainShape, skel_cons, Event.op, Go.bind_assoc]
  · rcases he0 : db.exec 0 with _ | e
    · rcases he1 : db.exec 1 with _ | e
      · rcases h1 : pg.sqlOpen .db1 with e | d1
        · cases sc <;> cases t <;>
            simp [Sys.init, Scenario.run, invoke, Scenario.Do, DirtyRead.Do, PhantomRead.Do,
              WriteSkew.Do, PatternBase.Do, h0, he0, he1, h1, sysShape, mainShape, skel_cons,
              Event.op, Go.bind_assoc]
        · rcases h2 : pg.sqlOpen .db2 with e | d2
          · cases sc <;> cases t <;>
              simp [Sys.init, Scenario.run, invoke, Scenario.Do, DirtyRead.Do, PhantomRead.Do,
                WriteSkew.Do, PatternBase.Do, h0, he0, he1, h1, h2, sysShape, mainShape,
                skel_cons, Event.op, Go.bind_assoc]
          · have hsp := run_spawned sc pg db d1 d2 h0 he0 he1 h1 h2
            cases t
            · cases sc <;>
                simp [Sys.init, Scenario.run, invoke, Scenario.Do, DirtyRead.Do, PhantomRead.Do,
                  WriteSkew.Do, PatternBase.Do, h0, he0, he1, h1, h2, sysShape, mainShape,
                  skel_cons, Event.op, NewDirtyRead, NewPhantomRead, NewWriteSkew,
                  NewPatternBase, Go.bind_assoc]
            · simp only [Sys.init, hsp]
              simp [List.lookup, roleCode_skel sc .looser (by decide) d1, Tid.ready,
                Tid.writeDone, he0, he1, sysShape]
            · simp only [Sys.init, hsp]
              have hne : (Tid.winner == Tid.looser) = false := by decide
              simp [List.lookup, roleCode_skel sc .winner (by decide) d2, Tid.ready,
                Tid.writeDone, he0, he1, sysShape, hne]
      · cases t <;>
          simp [Sys.init, Scenario.run, invoke, h0, he0, he1, sysShape, mainShape, skel_cons,
            Event.op]
    · cases t <;>
        simp [Sys.init, Scenario.run, invoke, h0, he0, sysShape, mainShape, skel_cons, Event.op, Go.bind_assoc]

/-- A check that holds of every shape holds of the code of every run. -/
theorem run_shape {p : (Tid → List Op) → Bool} (h : allShapes p = true)
    (sc : Scenario) (pg : Driver) :
    p (fun t => skel ((Sys.init (sc.run pg)).code t)) = true := by
  have : (fun t => skel ((Sys.init (sc.run pg)).code t)) = sysShape sc (sysFate pg) :=
    funext (run_code_skel sc pg)
  rw [this]
  exact allShapes_spec h sc _

theorem run_wellFormed (sc : Scenario) (pg : Driver) :
    WellFormed (Sys.init (sc.run pg)).code := by
  have h1 := run_shape (p := fun sh => allTids.all fun t => decide (Op.go .main ∉ sh t))
    (by decide) sc pg
  have h2 := run_shape (p := fun sh => allTids.all fun t => allTids.all fun u =>
    decide (t ≠ .main → Op.go u ∉ sh t)) (by decide) sc pg
  have h3 := run_shape (p := fun sh => allTids.all fun u =>
    decide ((sh .main).count (.go u) ≤ 1)) (by decide) sc pg
  simp only [allTids, List.all_cons, List.all_nil, Bool.and_true, Bool.and_eq_true,
    decide_eq_true_eq] at h1 h2 h3
  refine ⟨fun t hm => ?_, fun t u ht hm => ?_, fun u => ?_⟩
  · have := mem_skel.2 ⟨_, hm, rfl⟩
    cases t <;> simp_all
  · have := mem_skel.2 ⟨_, hm, rfl⟩
    cases t <;> cases u <;> simp_all
  · rw [count_go_skel]
    cases u <;> simp_all

/-! ## Facts about every run -/

theorem reachable_after (s0 : Sys) (ms : List Move) : Reachable s0 (s0.after ms) := by
  unfold Sys.after
  rcases h : s0.exec ms with _ | s
  · exact Reachable.start
  · exact reachable_of_exec ms Reachable.start h

theorem run_inv {sc : Scenario} {pg : Driver} {s : Sys}
    (h : Reachable (Sys.init (sc.run pg)) s) :
    OrderInv (Sys.init (sc.run pg)) s ∧ ChanInv s :=
  reachable_inv (run_wellFormed sc pg) h

/-- A check that holds of every shape holds of the code in every state of
every run. -/
theorem run_fact {p : (Tid → List Op) → Bool} (hp : allShapes p = true)
    {sc : Scenario} {pg : Driver} {s : Sys} (h : Reachable (Sys.init (sc.run pg)) s) :
    p (fun t => skel (s.code t)) = true := by
  rw [(run_inv h).1.code_eq]
  exact run_shape hp sc pg

/-- An operation that only goroutine `t0` has in its code is performed by
`t0`. -/
theorem owner_of_code {o : Op} {t0 : Tid}
    (hp : allShapes (fun sh => allTids.all fun t => decide (o ∈ sh t → t = t0)) = true)
    {sc : Scenario} {pg : Driver} {s : Sys} (h : Reachable (Sys.init (sc.run pg)) s)
    {t : Tid} {e : Event} (he : e ∈ s.code t) (hop : e.op = some o) : t = t0 := by
  have := run_fact hp h
  simp only [allTids, List.all_cons, List.all_nil, Bool.and_true, Bool.and_eq_true,
    decide_eq_true_eq] at this
  have hm : o ∈ skel (s.code t) := mem_skel.2 ⟨e, he, hop⟩
  cases t
  · exact this.1 hm
  · exact this.2.1 hm
  · exact this.2.2 hm

/-- An operation that no goroutine has in its code is never performed. -/
theorem absent_of_code {o : Op}
    (hp : allShapes (fun sh => allTids.all fun t => decide (o ∉ sh t)) = true)
    {sc : Scenario} {pg : Driver} {s : Sys} (h : Reachable (Sys.init (sc.run pg)) s)
    {t : Tid} {e : Event} (he : e ∈ s.code t) (hop : e.op = some o) : False := by
  have := run_fact hp h
  simp only [allTids, List.all_cons, List.all_nil, Bool.and_true, Bool.and_eq_true,
    decide_eq_true_eq] at this
  have hm : o ∈ skel (s.code t) := mem_skel.2 ⟨e, he, hop⟩
  cases t
  · exact this.1 hm
  · exact this.2.1 hm
  · exact this.2.2 hm

/-- In every goroutine, every occurrence of `o` comes after `g`. -/
theorem gated_of_code {g o : Op}
    (hp : allShapes (fun sh => allTids.all fun t => gated g o (sh t)) = true)
    {sc : Scenario} {pg : Driver} {s : Sys} (h : Reachable (Sys.init (sc.run pg)) s)
    (t : Tid) : gated g o (skel (s.code t)) = true := by
  have := run_fact hp h
  simp only [allTids, List.all_cons, List.all_nil, Bool.and_true, Bool.and_eq_true] at this
  cases t
  · exact this.1
  · exact this.2.1
  · exact this.2.2

/-- A receive from an arrival channel has met the send of the role that owns
the channel. -/
theorem arrival_sent {c : Chan} {r : Tid}
    (hsend : allShapes (fun sh => allTids.all fun t => decide (Op.send c ∈ sh t → t = r)) = true)
    (hclose : allShapes (fun sh => allTids.all fun t => decide (Op.close c ∉ sh t)) = true)
    {sc : Scenario} {pg : Driver} {s : Sys} (h : Reachable (Sys.init (sc.run pg)) s)
    {t : Tid} (hr : (t, Event.recv c) ∈ s.hist) : (r, Event.send c) ∈ s.hist := by
  have hi := run_inv h
  rcases recv_cause hi.2 hr with ⟨u, hu⟩ | ⟨u, hu⟩
  · have := owner_of_code hsend h (did_mem_code hi.1 hu) rfl
    exact this ▸ hu
  · exact (absent_of_code hclose h (did_mem_code hi.1 hu) rfl).elim

/-- A receive from a release channel has seen the main goroutine close it. -/
theorem release_closed {c : Chan}
    (hclose : allShapes (fun sh => allTids.all fun t =>
      decide (Op.close c ∈ sh t → t = .main)) = true)
    (hsend : allShapes (fun sh => allTids.all fun t => decide (Op.send c ∉ sh t)) = true)
    {sc : Scenario} {pg : Driver} {s : Sys} (h : Reachable (Sys.init (sc.run pg)) s)
    {t : Tid} (hr : (t, Event.recv c) ∈ s.hist) : (Tid.main, Event.close c) ∈ s.hist := by
  have hi := run_inv h
  rcases recv_cause hi.2 hr with ⟨u, hu⟩ | ⟨u, hu⟩
  · exact (absent_of_code hsend h (did_mem_code hi.1 hu) rfl).elim
  · have := owner_of_code hclose h (did_mem_code hi.1 hu) rfl
    exact this ▸ hu

/-- The main goroutine has received both ready signals, from the roles, once
it has closed `proceedSignal`. -/
theorem proceed_closed_after_arrivals {sc : Scenario} {pg : Driver} {s : Sys}
    (h : Reachable (Sys.init (sc.run pg)) s)
    (hc : (Tid.main, Event.recv .looserReady) ∈ s.hist ∧
      (Tid.main, Event.recv .winnerReady) ∈ s.hist) :
    (Tid.looser, Event.send .looserReady) ∈ s.hist ∧
    (Tid.winner, Event.send .winnerReady) ∈ s.hist :=
  ⟨arrival_sent (by decide) (by decide) h hc.1, arrival_sent (by decide) (by decide) h hc.2⟩

/-- The same for `commitSignal` and the write-done signals. -/
theorem commit_closed_after_arrivals {sc : Scenario} {pg : Driver} {s : Sys}
    (h : Reachable (Sys.init (sc.run pg)) s)
    (hc : (Tid.main, Event.recv .looserWriteDone) ∈ s.hist ∧
      (Tid.main, Event.recv .winnerWriteDone) ∈ s.hist) :
    (Tid.looser, Event.send .looserWriteDone) ∈ s.hist ∧
    (Tid.winner, Event.send .winnerWriteDone) ∈ s.hist :=
  ⟨arrival_sent (by decide) (by decide) h hc.1, arrival_sent (by decide) (by decide) h hc.2⟩

/-- What the main goroutine has done when it is about to perform, or has
performed, an operation gated by `g`. -/
theorem main_gate_hist {g o : Op} {x : Event} (hx : ∀ y : Event, y.op = some g → y = x)
    (hp : allShapes (fun sh => allTids.all fun t => gated g o (sh t)) = true)
    {sc : Scenario} {pg : Driver} {s : Sys} (h : Reachable (Sys.init (sc.run pg)) s)
    {t : Tid} {e : Event} (he : (t, e) ∈ s.hist) (hop : e.op = some o) : (t, x) ∈ s.hist := by
  obtain ⟨y, hy, hm⟩ := gate_hist (run_inv h).1 he hop (gated_of_code hp h t)
  exact hx y hy ▸ hm

theorem main_gate_todo {g o : Op} {x : Event} (hx : ∀ y : Event, y.op = some g → y = x)
    (hp : allShapes (fun sh => allTids.all fun t => gated g o (sh t)) = true)
    {sc : Scenario} {pg : Driver} {s : Sys} (h : Reachable (Sys.init (sc.run pg)) s)
    {t : Tid} {e : Event} {rest : List Event} (he : s.todo t = e :: rest)
    (hop : e.op = some o) : (t, x) ∈ s.hist := by
  obtain ⟨y, hy, hm⟩ := gate_todo (run_inv h).1 he hop (gated_of_code hp h t)
  exact hx y hy ▸ hm

/-! ## The barriers -/

/-- An operation the main goroutine has at most once in its code has not been
performed by anybody when the main goroutine is about to perform it. -/
theorem not_yet_done {o : Op} {x : Event} (hxo : x.op = some o)
    (hx : ∀ y : Event, y.op = some o → y = x)
    (howner : allShapes (fun sh => allTids.all fun t => decide (o ∈ sh t → t = .main)) = true)
    (hcount : allShapes (fun sh => decide ((sh .main).count o ≤ 1)) = true)
    {sc : Scenario} {pg : Driver} {s : Sys} (h : Reachable (Sys.init (sc.run pg)) s)
    {rest : List Event} (hto : s.todo .main = x :: rest) (u : Tid) : (u, x) ∉ s.hist := by
  intro hu
  have hi := run_inv h
  have hum := owner_of_code howner h (did_mem_code hi.1 hu) hxo
  subst hum
  have hc := run_fact hcount h
  simp only [decide_eq_true_eq] at hc
  rw [← count_skel x o hxo hx, ← hi.1.order .main (Or.inl rfl), hto, List.count_append,
    List.count_cons_self] at hc
  have : 0 < (proj .main s.hist).count x := List.count_pos_iff.2 (mem_proj.2 hu)
  omega

/-- Claim C4. In every run of every scenario, whatever the store answers: a
`close(proceedSignal)` in the history is performed by the main goroutine, after
the main goroutine has received from `looserReady` and from `winnerReady`, that
is after the looser and the winner have each sent their ready signal, and no
close of `proceedSignal` or of `commitSignal` comes before it; a
`close(commitSignal)` is performed by the main goroutine, after it has received
from `looserWriteDone` and `winnerWriteDone`, that is after both roles have sent
their write-done signal, after `proceedSignal` was closed, and no close of
`commitSignal` comes before it. -/
theorem barrier_releases_after_both_arrivals (sc : Scenario) (pg : Driver) (s : Sys)
    (hs : Reachable (Sys.init (sc.run pg)) s) (h1 h2 : List (Tid × Event)) (t : Tid) :
    (s.hist = h1 ++ (t, .close .proceedSignal) :: h2 →
      t = .main ∧
      (Tid.main, Event.recv .looserReady) ∈ h1 ∧ (Tid.main, Event.recv .winnerReady) ∈ h1 ∧
      (Tid.looser, Event.send .looserReady) ∈ h1 ∧ (Tid.winner, Event.send .winnerReady) ∈ h1 ∧
      ∀ u, (u, Event.close .proceedSignal) ∉ h1 ∧ (u, Event.close .commitSignal) ∉ h1) ∧
    (s.hist = h1 ++ (t, .close .commitSignal) :: h2 →
      t = .main ∧
      (Tid.main, Event.recv .looserWriteDone) ∈ h1 ∧
      (Tid.main, Event.recv .winnerWriteDone) ∈ h1 ∧
      (Tid.looser, Event.send .looserWriteDone) ∈ h1 ∧
      (Tid.winner, Event.send .winnerWriteDone) ∈ h1 ∧
      (Tid.main, Event.close .proceedSignal) ∈ h1 ∧
      ∀ u, (u, Event.close .commitSignal) ∉ h1) := by
  constructor
  · intro hsplit
    obtain ⟨s1, rest, hr, hto, -, hh | ⟨a, c, -, he⟩⟩ := reachable_split rfl hs hsplit
    · subst hh
      have hi := run_inv hr
      have htm : t = .main := owner_of_code (by decide) hr (todo_mem_code hi.1 hto) rfl
      subst htm
      have hrl : (Tid.main, Event.recv .looserReady) ∈ s1.hist :=
        main_gate_todo (fun _ => op_recv) (by decide) hr hto rfl
      have hrw : (Tid.main, Event.recv .winnerReady) ∈ s1.hist :=
        main_gate_todo (fun _ => op_recv) (by decide) hr hto rfl
      have hsd := proceed_closed_after_arrivals hr ⟨hrl, hrw⟩
      have hno := not_yet_done (o := .close .proceedSignal) (x := .close .proceedSignal) rfl (fun _ => op_close) (by decide)
        (by decide) hr hto
      refine ⟨rfl, hrl, hrw, hsd.1, hsd.2, fun u => ⟨hno u, fun hu => ?_⟩⟩
      have : (u, Event.close .proceedSignal) ∈ s1.hist :=
        main_gate_hist (x := .close .proceedSignal) (fun _ => op_close) (by decide) hr hu rfl
      exact hno u this
    · exact Event.noConfusion he
  · intro hsplit
    obtain ⟨s1, rest, hr, hto, -, hh | ⟨a, c, -, he⟩⟩ := reachable_split rfl hs hsplit
    · subst hh
      have hi := run_inv hr
      have htm : t = .main := owner_of_code (by decide) hr (todo_mem_code hi.1 hto) rfl
      subst htm
      have hrl : (Tid.main, Event.recv .looserWriteDone) ∈ s1.hist :=
        main_gate_todo (fun _ => op_recv) (by decide) hr hto rfl
      have hrw : (Tid.main, Event.recv .winnerWriteDone) ∈ s1.hist :=
        main_gate_todo (fun _ => op_recv) (by decide) hr hto rfl
      have hcp : (Tid.main, Event.close .proceedSignal) ∈ s1.hist :=
        main_gate_todo (fun _ => op_close) (by decide) hr hto rfl
      have hsd := commit_closed_after_arrivals hr ⟨hrl, hrw⟩
      exact ⟨rfl, hrl, hrw, hsd.1, hsd.2, hcp,
        not_yet_done (o := .close .commitSignal) (x := .close .commitSignal) rfl (fun _ => op_close) (by decide)
          (by decide) hr hto⟩
    · exact Event.noConfusion he

/-- Claim C5. In every run of every scenario, whatever the store answers and
however the goroutines interleave: a write of a role function (a `tx.Exec`
other than the isolation-level statement) is performed only after both roles
have sent their ready signal, and a `Commit` only after both roles have sent
their write-done signal. -/
theorem phases_are_gated_by_barriers (sc : Scenario) (pg : Driver) (s : Sys)
    (hs : Reachable (Sys.init (sc.run pg)) s) (h1 h2 : List (Tid × Event)) (t : Tid)
    (e : Event) (hsplit : s.hist = h1 ++ (t, e) :: h2) :
    (e.op = some .write →
      (Tid.looser, Event.send .looserReady) ∈ h1 ∧
      (Tid.winner, Event.send .winnerReady) ∈ h1) ∧
    (e.op = some .commit →
      (Tid.looser, Event.send .looserWriteDone) ∈ h1 ∧
      (Tid.winner, Event.send .winnerWriteDone) ∈ h1) := by
  obtain ⟨s1, rest, hr, hto, -, hh | ⟨a, c, -, he⟩⟩ := reachable_split rfl hs hsplit
  · subst hh
    constructor
    · intro hop
      have hp : (t, Event.recv .proceedSignal) ∈ s1.hist :=
        main_gate_todo (fun _ => op_recv) (by decide) hr hto hop
      have hc : (Tid.main, Event.close .proceedSignal) ∈ s1.hist :=
        release_closed (by decide) (by decide) hr hp
      exact proceed_closed_after_arrivals hr
        ⟨main_gate_hist (fun _ => op_recv) (by decide) hr hc rfl,
         main_gate_hist (fun _ => op_recv) (by decide) hr hc rfl⟩
    · intro hop
      have hp : (t, Event.recv .commitSignal) ∈ s1.hist :=
        main_gate_todo (fun _ => op_recv) (by decide) hr hto hop
      have hc : (Tid.main, Event.close .commitSignal) ∈ s1.hist :=
        release_closed (by decide) (by decide) hr hp
      exact commit_closed_after_arrivals hr
        ⟨main_gate_hist (fun _ => op_recv) (by decide) hr hc rfl,
         main_gate_hist (fun _ => op_recv) (by decide) hr hc rfl⟩
  · subst he
    exact ⟨fun h => by simp [Event.op] at h, fun h => by simp [Event.op] at h⟩

theorem reachable_after_of {s0 s : Sys} (h : Reachable s0 s) (ms : List Move) :
    Reachable s0 (s.after ms) := by
  unfold Sys.after
  rcases he : s.exec ms with _ | s2
  · exact h
  · exact reachable_of_exec ms h he

/-- Witness for C4: the close of `commitSignal` in the run `happySchedule`. -/
theorem barrier_releases_after_both_arrivals_witness :
    happyState.hist
      = happyState.hist.take 53 ++ (Tid.main, .close .commitSignal) :: happyState.hist.drop 54 ∧
    (Tid.looser, Event.send .looserWriteDone) ∈ happyState.hist.take 53 ∧
    (Tid.winner, Event.send .winnerWriteDone) ∈ happyState.hist.take 53 ∧
    (Tid.main, Event.close .proceedSignal) ∈ happyState.hist.take 53 :=
  have h : happyState.hist
      = happyState.hist.take 53 ++ (Tid.main, .close .commitSignal) :: happyState.hist.drop 54 := by
    decide
  have h2 := (barrier_releases_after_both_arrivals .dirtyRead happyDriver happyState
    (reachable_after _ _) (happyState.hist.take 53) (happyState.hist.drop 54) .main).2 h
  ⟨h, h2.2.2.2.1, h2.2.2.2.2.1, h2.2.2.2.2.2.1⟩

/-- Witness for C5: the `Commit` of the looser at the end of the run
`happySchedule`, `happyEnding`. -/
theorem phases_are_gated_by_barriers_witness :
    (happyState.after happyEnding).hist
      = (happyState.after happyEnding).hist.take 63 ++ (Tid.looser, .commit none)
          :: (happyState.after happyEnding).hist.drop 64 ∧
    (Tid.looser, Event.send .looserWriteDone) ∈ (happyState.after happyEnding).hist.take 63 ∧
    (Tid.winner, Event.send .winnerWriteDone) ∈ (happyState.after happyEnding).hist.take 63 :=
  have h : (happyState.after happyEnding).hist
      = (happyState.after happyEnding).hist.take 63 ++ (Tid.looser, .commit none)
          :: (happyState.after happyEnding).hist.drop 64 := by
    decide
  ⟨h, (phases_are_gated_by_barriers .dirtyRead happyDriver (happyState.after happyEnding)
    (reachable_after_of (reachable_after _ _) _) _ _ .looser (.commit none) h).2 rfl⟩

/-! ## Completion signals and the return of `Do` -/

theorem beforeEach_split {o : Op} {p : List Op → Bool} :
    ∀ {l acc A B : List Op}, beforeEach o p acc l = true → l = A ++ o :: B → p (acc ++ A) = true
  | [], acc, A, B, _, h => by simp at h
  | x :: xs, acc, [], B, hb, h => by
    simp only [List.nil_append, List.cons.injEq] at h
    simp only [beforeEach, h.1, if_true, Bool.and_eq_true] at hb
    simpa using hb.1
  | x :: xs, acc, y :: A, B, hb, h => by
    simp only [List.cons_append, List.cons.injEq] at h
    obtain ⟨rfl, hxs⟩ := h
    simp only [beforeEach, Bool.and_eq_true] at hb
    have := beforeEach_split hb.2 hxs
    simpa using this

/-- A check on what comes before every occurrence of `o` in the code of a
goroutine holds of what the goroutine has done when it is about to perform
`o`. -/
theorem before_todo {o : Op} {p : List Op → Bool} {t0 : Tid}
    (hp : allShapes (fun sh => beforeEach o p [] (sh t0)) = true)
    {sc : Scenario} {pg : Driver} {s : Sys} (h : Reachable (Sys.init (sc.run pg)) s)
    {e : Event} {rest : List Event} (hto : s.todo t0 = e :: rest) (hop : e.op = some o) :
    p (skel (proj t0 s.hist)) = true := by
  have hi := run_inv h
  have hf := run_fact hp h
  have hord := hi.1.order t0 (started_of_todo hi.1 hto)
  rw [hto] at hord
  have hsk : skel (s.code t0) = skel (proj t0 s.hist) ++ o :: skel rest := by
    rw [← hord, skel_append, skel_cons, hop]
  simpa using beforeEach_split hf hsk

theorem count_proj_le {s0 s : Sys} (hi : OrderInv s0 s) (t : Tid) (e : Event) :
    (proj t s.hist).count e ≤ (s.code t).count e := by
  by_cases hs : s.started t
  · rw [← hi.order t hs, List.count_append]
    omega
  · rw [(hi.idle t hs).1]
    simp

/-- No operation is performed more often than the codes of the goroutines
contain it. -/
theorem occurrences_le_code {s0 s : Sys} (hi : OrderInv s0 s) (e : Event) :
    occurrences e s.hist
      ≤ (s.code .main).count e + (s.code .looser).count e + (s.code .winner).count e := by
  rw [occurrences_eq_sum]
  have h1 := count_proj_le hi .main e
  have h2 := count_proj_le hi .looser e
  have h3 := count_proj_le hi .winner e
  omega

/-- Claim C2, amended. In every run of every scenario, whatever the store
answers and however the goroutines interleave:
* at most 2 values are ever sent on `done`;
* when `invoke`, the caller of `Do`, has received twice from `done`, exactly 2
  values have been sent;
* `Do` returns in the main goroutine, and at the moment it returns either it
  has itself sent 2 values on `done` (a store handle failed to open) or it has
  closed `commitSignal`. -/
theorem do_returns_after_release_or_own_signals (sc : Scenario) (pg : Driver) (s : Sys)
    (hs : Reachable (Sys.init (sc.run pg)) s) :
    occurrences (.send .done) s.hist ≤ 2 ∧
    (occurrences (.recv .done) s.hist = 2 → occurrences (.send .done) s.hist = 2) ∧
    (∀ (h1 h2 : List (Tid × Event)) (t : Tid) (f : String),
      s.hist = h1 ++ (t, .ret f) :: h2 →
        t = .main ∧
        ((proj .main h1).count (.send .done) = 2 ∨
          (Tid.main, Event.close .commitSignal) ∈ h1)) := by
  have hi := run_inv hs
  have hle : occurrences (.send .done) s.hist ≤ 2 := by
    have h1 := occurrences_le_code hi.1 (.send .done)
    have h2 := run_fact (p := fun sh => decide ((sh .main).count (.send .done)
      + (sh .looser).count (.send .done) + (sh .winner).count (.send .done) ≤ 2)) (by decide) hs
    simp only [decide_eq_true_eq] at h2
    rw [count_send_skel, count_send_skel, count_send_skel] at h1
    omega
  refine ⟨hle, fun hrecv => ?_, fun h1 h2 t f hsplit => ?_⟩
  · have hopen : s.closed .done = false := by
      rcases hcl : s.closed .done with _ | _
      · rfl
      · obtain ⟨u, hu⟩ := hi.2.closed_hist .done hcl
        exact (absent_of_code (by decide) hs (did_mem_code hi.1 hu) rfl).elim
    have := hi.2.counts .done hopen
    omega
  · obtain ⟨s1, rest, hr, hto, -, hh | ⟨a, c, -, he⟩⟩ := reachable_split rfl hs hsplit
    · subst hh
      have hi1 := run_inv hr
      have htm : t = .main := owner_of_code (by decide) hr (todo_mem_code hi1.1 hto) rfl
      subst htm
      refine ⟨rfl, ?_⟩
      have := @before_todo .ret
        (fun A => decide (A.count (.send .done) = 2 ∨ Op.close .commitSignal ∈ A)) .main
        (by decide) _ _ _ hr _ _ hto rfl
      simp only [decide_eq_true_eq] at this
      rcases this with h | h
      · left
        rw [count_send_skel]
        exact h
      · right
        obtain ⟨x, hx, hxo⟩ := mem_skel.1 h
        rw [op_close hxo] at hx
        exact mem_proj.1 hx
    · exact Event.noConfusion he

/-- Witness for C2: the run `happySchedule`, in which `Do` returns after
closing `commitSignal`. -/
theorem do_returns_after_release_or_own_signals_witness :
    happyState.hist
      = happyState.hist.take 57 ++ (Tid.main, .ret "Do") :: happyState.hist.drop 58 ∧
    ((proj .main (happyState.hist.take 57)).count (.send .done) = 2 ∨
      (Tid.main, Event.close .commitSignal) ∈ happyState.hist.take 57) :=
  have h : happyState.hist
      = happyState.hist.take 57 ++ (Tid.main, .ret "Do") :: happyState.hist.drop 58 := by
    decide
  ⟨h, ((do_returns_after_release_or_own_signals .dirtyRead happyDriver happyState
    (reachable_after _ _)).2.2 _ _ .main "Do" h).2⟩

/-- Counterexample to C2 as stated, in both directions. In the `DirtyRead` run
on a store where every call succeeds, the schedule `happySchedule` is possible
and leads to a state in which `Do` has returned and no value has been sent on
`done` yet. In the run on a store where the first read of each role fails, the
schedule `bothReadsFailSchedule` is possible and leads to a state in which two
values have been sent on `done`, `Do` has not returned, and no goroutine can
move any more: the main goroutine waits for `looserReady` forever. -/
theorem do_return_is_not_tied_to_two_signals :
    ((Sys.init (Scenario.run .dirtyRead happyDriver)).exec happySchedule).map
        (fun s => (decide ((Tid.main, Event.ret "Do") ∈ s.hist),
          occurrences (.send .done) s.hist))
      = some (true, 0) ∧
    ((Sys.init (Scenario.run .dirtyRead bothReadsFailDriver)).exec bothReadsFailSchedule).map
        (fun s => (occurrences (.send .done) s.hist,
          decide ((Tid.main, Event.ret "Do") ∈ s.hist), s.stuck, (s.todo .main).head?))
      = some (2, false, true, some (.recv .looserReady)) := by
  decide

/-! ## Abandoned barriers: what never happens -/

theorem abandoned_fact {p : Barrier → Tid → (Tid → List Op) → Bool}
    (hp : allAbandoned p = true) {sc : Scenario} {b : Barrier} {r : Tid} {fl fw : Fate}
    (hr : r = .looser ∨ r = .winner)
    (hab : b.abortedBy sc (fateAt fl fw r) = true)
    (hpass : b.passedBy sc (fateAt fl fw r.other) = true) :
    p b r (sysShape sc (.launched fl fw)) = true := by
  simp only [allAbandoned, List.all_eq_true] at hp
  have := hp sc (by cases sc <;> decide) b (by cases b <;> decide) r
    (by rcases hr with rfl | rfl <;> decide) fl (mem_allFates fl) fw (mem_allFates fw)
  simpa [hab, hpass] using this

theorem run_abandoned {p : Barrier → Tid → (Tid → List Op) → Bool}
    (hp : allAbandoned p = true) {sc : Scenario} {pg : Driver} {b : Barrier} {r : Tid}
    {fl fw : Fate} (hr : r = .looser ∨ r = .winner) (hf : sysFate pg = .launched fl fw)
    (hab : b.abortedBy sc (fateAt fl fw r) = true)
    (hpass : b.passedBy sc (fateAt fl fw r.other) = true)
    {s : Sys} (h : Reachable (Sys.init (sc.run pg)) s) :
    p b r (fun t => skel (s.code t)) = true := by
  have : (fun t => skel (s.code t)) = sysShape sc (.launched fl fw) := by
    funext t
    rw [(run_inv h).1.code_eq, run_code_skel, hf]
  rw [this]
  exact abandoned_fact hp hr hab hpass

theorem arrive_cap (b : Barrier) (t : Tid) : (b.arrive t).cap = 0 := by
  cases b <;> cases t <;> rfl

/-- In a run where role `r` aborts before barrier `b` and the other role
succeeds in that phase: nobody ever receives the arrival of `r`, the other role
never gets past the operation it waits at, the barrier is never released, and
`Do` never returns. -/
theorem abandoned_never {sc : Scenario} {pg : Driver} {b : Barrier} {r : Tid}
    {fl fw : Fate} (hr : r = .looser ∨ r = .winner) (hf : sysFate pg = .launched fl fw)
    (hab : b.abortedBy sc (fateAt fl fw r) = true)
    (hpass : b.passedBy sc (fateAt fl fw r.other) = true)
    {s : Sys} (h : Reachable (Sys.init (sc.run pg)) s) :
    (∀ u, (u, Event.recv (b.arrive r)) ∉ s.hist) ∧
    (r.other, b.otherWaitsAt r) ∉ s.hist ∧
    s.closed b.release = false ∧
    (∀ u, (u, Event.close b.release) ∉ s.hist) ∧
    (∀ u f, (u, Event.ret f) ∉ s.hist) := by
  have hi := run_inv h
  have hnorecv : ∀ u, (u, Event.recv (b.arrive r)) ∉ s.hist := by
    intro u hu
    rcases recv_cause hi.2 hu with ⟨v, hv⟩ | ⟨v, hv⟩
    · have hfact := run_abandoned
        (p := fun b r sh => allTids.all fun t => decide (Op.send (b.arrive r) ∉ sh t))
        (by decide) hr hf hab hpass h
      simp only [allTids, List.all_cons, List.all_nil, Bool.and_true, Bool.and_eq_true,
        decide_eq_true_eq] at hfact
      have hm : Op.send (b.arrive r) ∈ skel (s.code v) :=
        mem_skel.2 ⟨_, did_mem_code hi.1 hv, rfl⟩
      cases v
      · exact hfact.1 hm
      · exact hfact.2.1 hm
      · exact hfact.2.2 hm
    · have hfact := run_fact (p := fun sh => allTids.all fun t => allBarriers.all fun b =>
        allTids.all fun r => decide (Op.close (b.arrive r) ∉ sh t)) (by decide) h
      simp only [allTids, allBarriers, List.all_cons, List.all_nil, Bool.and_true,
        Bool.and_eq_true, decide_eq_true_eq] at hfact
      have hm : Op.close (b.arrive r) ∈ skel (s.code v) :=
        mem_skel.2 ⟨_, did_mem_code hi.1 hv, rfl⟩
      cases v <;> cases b <;> cases r <;> simp_all
  have hgate : ∀ (o : Barrier → Op) (e : Event), e.op = some (o b) →
      allAbandoned (fun b r sh => allTids.all fun t =>
        gated (.recv (b.arrive r)) (o b) (sh t)) = true →
      ∀ u, (u, e) ∉ s.hist := by
    intro o e heo hp u hu
    have hfact := run_abandoned hp hr hf hab hpass h
    simp only [allTids, List.all_cons, List.all_nil, Bool.and_true, Bool.and_eq_true] at hfact
    have hg : gated (.recv (b.arrive r)) (o b) (skel (s.code u)) = true := by
      cases u
      · exact hfact.1
      · exact hfact.2.1
      · exact hfact.2.2
    obtain ⟨x, hx, hm⟩ := gate_hist hi.1 hu heo hg
    rw [op_recv hx] at hm
    exact hnorecv u hm
  have hnoclose : ∀ u, (u, Event.close b.release) ∉ s.hist :=
    hgate (fun b => .close b.release) (.close b.release) rfl (by decide)
  refine ⟨hnorecv, ?_, ?_, hnoclose,
    fun u f => hgate (fun _ => .ret) (.ret f) rfl (by decide) u⟩
  · rcases hr with rfl | rfl
    · intro hu
      have hu2 : (Tid.winner, Event.send (b.arrive .winner)) ∈ s.hist := hu
      rcases send_cause hi.2 (arrive_cap b .winner) hu2 with ⟨v, hv⟩ | ⟨v, hv⟩
      · have hg := gated_of_code (g := .recv (b.arrive .looser)) (o := .recv (b.arrive .winner))
          (by cases b <;> decide) h v
        obtain ⟨x, hx, hm⟩ := gate_hist hi.1 hv rfl hg
        rw [op_recv hx] at hm
        exact hnorecv v hm
      · have hfact := run_fact (p := fun sh => allTids.all fun t => allBarriers.all fun b =>
          allTids.all fun r => decide (Op.close (b.arrive r) ∉ sh t)) (by decide) h
        simp only [allTids, allBarriers, List.all_cons, List.all_nil, Bool.and_true,
          Bool.and_eq_true, decide_eq_true_eq] at hfact
        have hm : Op.close (b.arrive .winner) ∈ skel (s.code v) :=
          mem_skel.2 ⟨_, did_mem_code hi.1 hv, rfl⟩
        cases v <;> cases b <;> simp_all
    · intro hu
      have hu2 : (Tid.looser, Event.recv b.release) ∈ s.hist := hu
      rcases recv_cause hi.2 hu2 with ⟨v, hv⟩ | ⟨v, hv⟩
      · have hfact := run_fact (p := fun sh => allTids.all fun t => allBarriers.all fun b =>
          decide (Op.send b.release ∉ sh t)) (by decide) h
        simp only [allTids, allBarriers, List.all_cons, List.all_nil, Bool.and_true,
          Bool.and_eq_true, decide_eq_true_eq] at hfact
        have hm : Op.send b.release ∈ skel (s.code v) :=
          mem_skel.2 ⟨_, did_mem_code hi.1 hv, rfl⟩
        cases v <;> cases b <;> simp_all
      · exact hnoclose v hv
  · rcases hcl : s.closed b.release with _ | _
    · rfl
    · obtain ⟨u, hu⟩ := hi.2.closed_hist _ hcl
      exact absurd hu (hnoclose u)

theorem op_event (o : Op) : (Op.event o).op = some o := by
  cases o <;> simp [Op.event, Event.op, setIsolationLevel]

theorem skel_map_event (l : List Op) : skel (l.map Op.event) = l := by
  induction l with
  | nil => rfl
  | cons o l ih => simp [skel_cons, op_event, ih]

theorem op_map_event {l : List Op} {x : Event} (h : x ∈ l.map Op.event) : x.op ≠ none := by
  rcases List.mem_map.1 h with ⟨o, _, rfl⟩
  simp [op_event]

/-- A list of events whose protocol operations start with `o` is a run of
events without protocol content, followed by an event with content `o`. -/
theorem skel_split {l : List Event} {o : Op} {os : List Op} (h : skel l = o :: os) :
    ∃ pre e rest, l = pre ++ e :: rest ∧ (∀ x ∈ pre, x.op = none) ∧ e.op = some o ∧
      skel rest = os := by
  induction l with
  | nil => simp [skel] at h
  | cons x l ih =>
    rcases hx : x.op with _ | o2
    · have : skel l = o :: os := by simpa [skel_cons, hx] using h
      rcases ih this with ⟨pre, e, rest, h1, h2, h3, h4⟩
      refine ⟨x :: pre, e, rest, by simp [h1], ?_, h3, h4⟩
      intro y hy
      rcases List.mem_cons.1 hy with rfl | hy
      · exact hx
      · exact h2 y hy
    · have h2 : o2 :: skel l = o :: os := by simpa [skel_cons, hx] using h
      injection h2 with h3 h4
      exact ⟨[], x, l, rfl, by simp, by rw [hx, h3], h4⟩

theorem reachable_trans {s0 s s2 : Sys} (h1 : Reachable s0 s) (h2 : Reachable s s2) :
    Reachable s0 s2 := by
  induction h2 with
  | start => exact h1
  | step m _ hf ih => exact Reachable.step m ih hf

/-- A goroutine gets through its events without protocol content on its own,
and that changes nothing else. -/
theorem skip_silent {s0 : Sys} {t : Tid} (pre : List Event) :
    ∀ {s : Sys} {l : List Event}, Reachable s0 s → s.crashed = false →
      s.todo t = pre ++ l → (∀ x ∈ pre, x.op = none) →
      ∃ s2, Reachable s0 s2 ∧ s2.todo = Function.update s.todo t l ∧ s2.code = s.code ∧
        s2.buf = s.buf ∧ s2.closed = s.closed ∧ s2.crashed = false := by
  induction pre with
  | nil =>
    intro s l hr hc ht _
    refine ⟨s, hr, ?_, rfl, rfl, rfl, hc⟩
    funext u
    by_cases hu : u = t
    · subst hu; simpa using ht
    · simp [Function.update, hu]
  | cons x pre ih =>
    intro s l hr hc ht hp
    have hx : x.op = none := hp x (List.mem_cons_self _ _)
    have hfire : s.fire (.solo t) = some (s.perform t x (pre ++ l)) := by
      have hen : s.enabled x = true := by
        cases x <;> first | rfl | simp [Event.op] at hx
      simp [Sys.fire, hc, ht, hen]
    have hperf : (s.perform t x (pre ++ l)).todo = Function.update s.todo t (pre ++ l) ∧
        (s.perform t x (pre ++ l)).buf = s.buf ∧ (s.perform t x (pre ++ l)).closed = s.closed ∧
        (s.perform t x (pre ++ l)).crashed = false := by
      cases x <;> first | exact ⟨rfl, rfl, rfl, rfl⟩ | simp [Event.op] at hx
    rcases ih (s := s.perform t x (pre ++ l)) (l := l) (Reachable.step _ hr hfire) hperf.2.2.2
      (by rw [hperf.1]; simp) (fun y hy => hp y (List.mem_cons_of_mem _ hy))
      with ⟨s2, h1, h2, h3, h4, h5, h6⟩
    refine ⟨s2, h1, ?_, h3, h4.trans hperf.2.1, h5.trans hperf.2.2.1, h6⟩
    rw [h2, hperf.1]
    simp

theorem skel_update {f g : Tid → List Event} (h : ∀ u, skel (f u) = skel (g u)) (t : Tid)
    {l l2 : List Event} (hl : skel l = skel l2) (u : Tid) :
    skel (Function.update f t l u) = skel (Function.update g t l2 u) := by
  by_cases hu : u = t
  · subst hu; simpa using hl
  · simpa [Function.update, hu] using h u

theorem pure_update {g : Tid → List Event} (h : ∀ u, ∀ x ∈ g u, x.op ≠ none) (t : Tid)
    {l : List Event} (hl : ∀ x ∈ l, x.op ≠ none) (u : Tid) :
    ∀ x ∈ Function.update g t l u, x.op ≠ none := by
  by_cases hu : u = t
  · subst hu; simpa using hl
  · simpa [Function.update, hu] using h u

/-- Whether an operation is possible depends on its protocol content and the
channels only. -/
theorem same_op_enabled {s a : Sys} (hb : s.buf = a.buf) (hc : s.closed = a.closed)
    {e x : Event} (hop : e.op = x.op) (hne : x.op ≠ none) : s.enabled e = a.enabled x := by
  cases e <;> cases x <;> simp [Event.op] at hop hne <;>
    first
    | (split at hop <;> cases hop)
    | simp_all [Sys.enabled]

/-- Two operations with the same protocol content have the same effect. -/
theorem perform_sim {s a : Sys} (hs : Sim s a) {t : Tid} {e x : Event} {rest xrest : List Event}
    (hop : e.op = x.op) (hne : x.op ≠ none) (hrest : skel rest = skel xrest)
    (hpure : ∀ y ∈ xrest, y.op ≠ none) : Sim (s.perform t e rest) (a.perform t x xrest) := by
  have hb := hs.buf
  have hc := hs.closed
  cases e <;> cases x <;> simp [Event.op] at hop hne <;> (try subst hop) <;>
    first
    | (split at hop <;> cases hop)
    | exact ⟨skel_update hs.todo t hrest, hs.code, by simp [Sys.perform, hb, hc],
        by simp [Sys.perform, hb, hc], by simp [Sys.perform, hb, hc],
        pure_update hs.pure_todo t hpure, hs.pure_code⟩
    | exact ⟨skel_update (skel_update hs.todo t hrest) _ (hs.code _), hs.code,
        by simp [Sys.perform, hb, hc],
        by simp [Sys.perform, hb, hc], by simp [Sys.perform, hb, hc],
        pure_update (pure_update hs.pure_todo t hpure) _ (hs.pure_code _), hs.pure_code⟩

/-- A move of the protocol on its own can be made in the run, after the
goroutines involved have got through their events without protocol content. -/
theorem lift_move {s0 s a a2 : Sys} {m : Move} (hr : Reachable s0 s) (hs : Sim s a)
    (hf : a.fire m = some a2) : ∃ s2, Reachable s0 s2 ∧ Sim s2 a2 := by
  rcases fire_cases hf with ⟨t, x, xrest, -, hc, hto, hen, rfl⟩ |
    ⟨p, q, c, ra, rb, -, hc, hpq, hta, htb, hcap, hcl, rfl⟩
  · have hx : x.op ≠ none := hs.pure_todo t x (by rw [hto]; exact List.mem_cons_self _ _)
    rcases hxo : x.op with _ | o
    · exact absurd hxo hx
    have hsk : skel (s.todo t) = o :: skel xrest := by
      rw [hs.todo t, hto, skel_cons, hxo]
    rcases skel_split hsk with ⟨pre, e, rest, h1, h2, h3, h4⟩
    rcases skip_silent pre hr (hs.crashed.trans hc) h1 h2 with ⟨s1, r1, t1, c1, b1, cl1, cr1⟩
    have hs1 : Sim s1 a :=
      ⟨fun u => by rw [t1]; by_cases hu : u = t
                   · subst hu; simp [hto, skel_cons, h3, hxo, h4]
                   · simpa [Function.update, hu] using hs.todo u,
        fun u => by rw [c1]; exact hs.code u, b1.trans hs.buf, cl1.trans hs.closed,
        cr1.trans hc.symm, hs.pure_todo, hs.pure_code⟩
    have hto1 : s1.todo t = e :: rest := by rw [t1]; simp
    have heo : e.op = x.op := by rw [h3, hxo]
    have hfire : s1.fire (.solo t) = some (s1.perform t e rest) := by
      have : s1.enabled e = true := by rw [same_op_enabled hs1.buf hs1.closed heo hx]; exact hen
      simp [Sys.fire, cr1, hto1, this]
    exact ⟨_, Reachable.step _ r1 hfire, perform_sim hs1 heo hx h4
      (fun y hy => hs.pure_todo t y (by rw [hto]; exact List.mem_cons_of_mem _ hy))⟩
  · have hska : skel (s.todo p) = .send c :: skel ra := by
      rw [hs.todo p, hta, skel_cons]; rfl
    have hskb : skel (s.todo q) = .recv c :: skel rb := by
      rw [hs.todo q, htb, skel_cons]; rfl
    rcases skel_split hska with ⟨prea, ea, resta, ha1, ha2, ha3, ha4⟩
    rcases skel_split hskb with ⟨preb, eb, restb, hb1, hb2, hb3, hb4⟩
    have hea : ea = .send c := by
      cases ea <;> simp [Event.op] at ha3
      · split at ha3 <;> cases ha3
      · rw [ha3]
    have heb : eb = .recv c := by
      cases eb <;> simp [Event.op] at hb3
      · split at hb3 <;> cases hb3
      · rw [hb3]
    subst hea heb
    rcases skip_silent prea hr (hs.crashed.trans hc) ha1 ha2 with ⟨s1, r1, t1, c1, b1, cl1, cr1⟩
    have hq1 : s1.todo q = preb ++ .recv c :: restb := by
      rw [t1]; simpa [Function.update, Ne.symm hpq] using hb1
    rcases skip_silent preb r1 cr1 hq1 hb2 with ⟨s2, r2, t2, c2, b2, cl2, cr2⟩
    have hp2 : s2.todo p = .send c :: resta := by
      rw [t2, t1]; simp [Function.update, hpq]
    have hq2 : s2.todo q = .recv c :: restb := by rw [t2]; simp
    have hcl2 : s2.closed c = false := by rw [cl2, cl1, hs.closed]; exact hcl
    have hfire : s2.fire (.sync p q) = some { s2 with
        todo := Function.update (Function.update s2.todo p resta) q restb
        hist := s2.hist ++ [(p, .send c), (q, .recv c)] } := by
      simp [Sys.fire, cr2, hpq, hp2, hq2, hcap, hcl2]
    refine ⟨_, Reachable.step _ r2 hfire, ?_, ?_, ?_, ?_, ?_, ?_, ?_⟩
    · intro u
      have h0 : ∀ v, skel (s2.todo v) = skel (a.todo v) ∨ v = p ∨ v = q := by
        intro v
        by_cases hvq : v = q
        · exact Or.inr (Or.inr hvq)
        by_cases hvp : v = p
        · exact Or.inr (Or.inl hvp)
        left
        rw [t2, t1]
        simpa [Function.update, hvq, hvp] using hs.todo v
      show skel (Function.update (Function.update s2.todo p resta) q restb u) =
        skel (Function.update (Function.update a.todo p ra) q rb u)
      by_cases huq : u = q
      · subst huq; simpa using hb4
      by_cases hup : u = p
      · subst hup; simpa [Function.update, huq] using ha4
      rcases h0 u with h | h | h
      · simpa [Function.update, huq, hup] using h
      · exact absurd h hup
      · exact absurd h huq
    · intro u; show skel (s2.code u) = _; rw [c2, c1]; exact hs.code u
    · show s2.buf = a.buf; rw [b2, b1]; exact hs.buf
    · show s2.closed = a.closed; rw [cl2, cl1]; exact hs.closed
    · show s2.crashed = a.crashed; rw [cr2]; exact hc.symm
    · exact pure_update (pure_update hs.pure_todo p
        (fun y hy => hs.pure_todo p y (by rw [hta]; exact List.mem_cons_of_mem _ hy))) q
        (fun y hy => hs.pure_todo q y (by rw [htb]; exact List.mem_cons_of_mem _ hy))
    · exact hs.pure_code

/-- Every state of the protocol on its own is matched by a state of the run. -/
theorem lift_reachable {s0 a0 a : Sys} (h0 : Sim s0 a0) (h : Reachable a0 a) :
    ∃ s, Reachable s0 s ∧ Sim s a := by
  induction h with
  | start => exact ⟨s0, Reachable.start, h0⟩
  | step m _ hf ih =>
    rcases ih with ⟨s, hr, hs⟩
    exact lift_move hr hs hf

theorem firstOf_fire {s s2 : Sys} (ms : List Move) (h : s.firstOf ms = some s2) :
    ∃ m, s.fire m = some s2 := by
  induction ms with
  | nil => exact Option.noConfusion h
  | cons m ms ih =>
    simp only [Sys.firstOf] at h
    rcases hf : s.fire m with _ | s3
    · rw [hf] at h; exact ih h
    · rw [hf] at h; exact ⟨m, hf.trans h⟩

theorem reachable_runGreedy (n : Nat) : ∀ {s0 s : Sys}, Reachable s0 s →
    Reachable s0 (s.runGreedy n) := by
  induction n with
  | zero => intro s0 s h; exact h
  | succ n ih =>
    intro s0 s h
    simp only [Sys.runGreedy]
    rcases hf : s.firstOf allMoves with _ | s2
    · exact h
    · rcases firstOf_fire _ hf with ⟨m, hm⟩
      exact ih (Reachable.step m h hm)

/-- A run starts in agreement with the protocol of its goroutines on its own. -/
theorem sim_init (sc : Scenario) (pg : Driver) :
    Sim (Sys.init (sc.run pg)) (absInit (sysShape sc (sysFate pg))) := by
  have habs : ∀ t, (absInit (sysShape sc (sysFate pg))).code t =
      (sysShape sc (sysFate pg) t).map Op.event := by
    intro t
    cases t <;> rfl
  have hcode : ∀ t, skel ((absInit (sysShape sc (sysFate pg))).code t) =
      sysShape sc (sysFate pg) t := by
    intro t
    rw [habs, skel_map_event]
  have hpc : ∀ t, ∀ x ∈ (absInit (sysShape sc (sysFate pg))).code t, x.op ≠ none := by
    intro t x hx
    rw [habs] at hx
    exact op_map_event hx
  refine ⟨?_, fun t => (run_code_skel sc pg t).trans (hcode t).symm, rfl, rfl, rfl, ?_, hpc⟩
  · intro t
    cases t
    · exact (run_code_skel sc pg .main).trans (hcode .main).symm
    · rfl
    · rfl
  · intro t x hx
    cases t
    · exact hpc .main x hx
    · simp [absInit, Sys.init] at hx
    · simp [absInit, Sys.init] at hx

set_option maxRecDepth 1000000 in
set_option maxHeartbeats 4000000 in
/-- Checked on the protocol operations of every run in which role `r` aborts
before barrier `b` and the other role succeeds: running the protocol on its own
ends, without a crash, in a state where nothing can move, the main goroutine is
at the receive of the missing arrival and the other role at
`b.otherWaitsAt r`. -/
theorem abandoned_protocol_deadlock :
    allAbandoned (fun b r sh =>
      ((absInit sh).runGreedy 64).stuck &&
      !((absInit sh).runGreedy 64).crashed &&
      decide ((((absInit sh).runGreedy 64).todo .main).head? = some (.recv (b.arrive r))) &&
      decide ((((absInit sh).runGreedy 64).todo r.other).head? = some (b.otherWaitsAt r))) =
      true := by
  decide

theorem mem_allMoves (m : Move) : m ∈ allMoves := by
  cases m with
  | solo t => cases t <;> decide
  | sync a b => cases a <;> cases b <;> decide

theorem eq_send_of_op {e : Event} {c : Chan} (h : e.op = some (.send c)) : e = .send c := by
  cases e <;> simp [Event.op] at h
  · split at h <;> cases h
  · rw [h]

theorem eq_recv_of_op {e : Event} {c : Chan} (h : e.op = some (.recv c)) : e = .recv c := by
  cases e <;> simp [Event.op] at h
  · split at h <;> cases h
  · rw [h]

theorem silent_split (l : List Event) :
    ∃ pre l2, l = pre ++ l2 ∧ (∀ x ∈ pre, x.op = none) ∧ skel l2 = skel l ∧
      ∀ e rest, l2 = e :: rest → e.op ≠ none := by
  induction l with
  | nil => exact ⟨[], [], rfl, by simp, rfl, fun e rest h => by cases h⟩
  | cons x l ih =>
    rcases hx : x.op with _ | o
    · rcases ih with ⟨pre, l2, h1, h2, h3, h4⟩
      refine ⟨x :: pre, l2, by simp [h1], ?_, by simp [skel_cons, hx, h3], h4⟩
      intro y hy
      rcases List.mem_cons.1 hy with rfl | hy
      · exact hx
      · exact h2 y hy
    · refine ⟨[], x :: l, rfl, by simp, rfl, ?_⟩
      intro e rest h
      injection h with h1 h2
      subst h1
      simp [hx]

/-- A list of events with protocol content only starts with an event whose
content is the first of its protocol operations. -/
theorem pure_head {l : List Event} (hl : ∀ x ∈ l, x.op ≠ none) {o : Op} {os : List Op}
    (h : skel l = o :: os) : ∃ x rest, l = x :: rest ∧ x.op = some o := by
  cases l with
  | nil => simp [skel] at h
  | cons x rest =>
    rcases hx : x.op with _ | o2
    · exact absurd hx (hl x (List.mem_cons_self _ _))
    · have h2 : o2 :: skel rest = o :: os := by simpa [skel_cons, hx] using h
      injection h2 with h3 h4
      exact ⟨x, rest, rfl, by rw [hx, h3]⟩

/-- Goroutine `t` gets through the events without protocol content at the head
of what it has left, the rest of the state staying as it is. -/
theorem settle_one {s0 s a : Sys} (t : Tid) (hr : Reachable s0 s) (hs : Sim s a)
    (hc : s.crashed = false) :
    ∃ s2, Reachable s0 s2 ∧ Sim s2 a ∧ s2.crashed = false ∧
      (∀ e rest, s2.todo t = e :: rest → e.op ≠ none) ∧ ∀ u, u ≠ t → s2.todo u = s.todo u := by
  rcases silent_split (s.todo t) with ⟨pre, l2, h1, h2, h3, h4⟩
  rcases skip_silent pre hr hc h1 h2 with ⟨s1, r1, t1, c1, b1, cl1, cr1⟩
  refine ⟨s1, r1, ⟨?_, ?_, b1.trans hs.buf, cl1.trans hs.closed, ?_, hs.pure_todo,
    hs.pure_code⟩, cr1, ?_, ?_⟩
  · intro u
    rw [t1]
    by_cases hu : u = t
    · subst hu; simpa [h3] using hs.todo u
    · simpa [Function.update, hu] using hs.todo u
  · intro u; rw [c1]; exact hs.code u
  · rw [cr1, ← hc]; exact hs.crashed
  · intro e rest h
    rw [t1] at h
    exact h4 e rest (by simpa using h)
  · intro u hu
    rw [t1]
    simp [Function.update, hu]

/-- Every goroutine gets through the events without protocol content at the
head of what it has left. -/
theorem settle {s0 s a : Sys} (hr : Reachable s0 s) (hs : Sim s a) (hc : s.crashed = false) :
    ∃ s2, Reachable s0 s2 ∧ Sim s2 a ∧ s2.crashed = false ∧
      ∀ t e rest, s2.todo t = e :: rest → e.op ≠ none := by
  rcases settle_one .main hr hs hc with ⟨s1, r1, m1, c1, d1, o1⟩
  rcases settle_one .looser r1 m1 c1 with ⟨s2, r2, m2, c2, d2, o2⟩
  rcases settle_one .winner r2 m2 c2 with ⟨s3, r3, m3, c3, d3, o3⟩
  refine ⟨s3, r3, m3, c3, ?_⟩
  intro t e rest h
  cases t
  · rw [o3 .main (by decide), o2 .main (by decide)] at h
    exact d1 e rest h
  · rw [o3 .looser (by decide)] at h
    exact d2 e rest h
  · exact d3 e rest h

/-- When the protocol on its own cannot move, a matching state of the run whose
goroutines are all at a protocol operation cannot move either. -/
theorem stuck_of_sim {s a : Sys} (hs : Sim s a)
    (hd : ∀ t e rest, s.todo t = e :: rest → e.op ≠ none) (ha : a.stuck = true) :
    s.stuck = true := by
  have ha2 : ∀ m, a.fire m = none := by
    intro m
    have := (List.all_eq_true.1 ha) m (mem_allMoves m)
    simpa using this
  have hs2 : ∀ m, s.fire m = none := by
    intro m
    rcases hf : s.fire m with _ | s2
    · rfl
    exfalso
    rcases fire_cases hf with ⟨t, e, rest, rfl, hc, hto, hen, -⟩ |
      ⟨p, q, c, ra, rb, rfl, hc, hpq, hta, htb, hcap, hcl, -⟩
    · rcases heo : e.op with _ | o
      · exact hd t e rest hto heo
      have hsk : skel (a.todo t) = o :: skel rest := by
        rw [← hs.todo t, hto, skel_cons, heo]
      rcases pure_head (hs.pure_todo t) hsk with ⟨x, xrest, hx1, hx2⟩
      have hen2 : a.enabled x = true := by
        rw [← same_op_enabled hs.buf hs.closed (heo.trans hx2.symm) (by simp [hx2])]
        exact hen
      have := ha2 (.solo t)
      simp [Sys.fire, ← hs.crashed, hc, hx1, hen2] at this
    · have hska : skel (a.todo p) = .send c :: skel ra := by
        rw [← hs.todo p, hta, skel_cons]; rfl
      have hskb : skel (a.todo q) = .recv c :: skel rb := by
        rw [← hs.todo q, htb, skel_cons]; rfl
      rcases pure_head (hs.pure_todo p) hska with ⟨x, xrest, hx1, hx2⟩
      rcases pure_head (hs.pure_todo q) hskb with ⟨y, yrest, hy1, hy2⟩
      have hx := eq_send_of_op hx2
      have hy := eq_recv_of_op hy2
      subst hx hy
      have := ha2 (.sync p q)
      simp [Sys.fire, ← hs.crashed, hc, hpq, hx1, hy1, hcap, ← hs.closed, hcl] at this
  simp [Sys.stuck, hs2]

/-- A goroutine of the run at a protocol operation is at the channel operation
the protocol on its own is at. -/
theorem head_of_sim {s a : Sys} (hs : Sim s a) {t : Tid}
    (hd : ∀ e rest, s.todo t = e :: rest → e.op ≠ none) {x : Event}
    (hx : (∃ c, x = .send c) ∨ ∃ c, x = .recv c)
    (hh : (a.todo t).head? = some x) : (s.todo t).head? = some x := by
  rcases hta : a.todo t with _ | ⟨y, yrest⟩
  · simp [hta] at hh
  have hy : y = x := by simpa [hta] using hh
  subst hy
  rcases hyo : y.op with _ | o
  · rcases hx with ⟨c, rfl⟩ | ⟨c, rfl⟩ <;> simp [Event.op] at hyo
  have hsk : skel (s.todo t) = o :: skel yrest := by
    rw [hs.todo t, hta, skel_cons, hyo]
  rcases hts : s.todo t with _ | ⟨e, rest⟩
  · simp [hts, skel] at hsk
  rcases heo : e.op with _ | o2
  · exact absurd heo (hd e rest hts)
  have h2 : o2 = o := by
    have : o2 :: skel rest = o :: skel yrest := by simpa [hts, skel_cons, heo] using hsk
    injection this
  subst h2
  simp only [List.head?_cons, Option.some.injEq]
  rcases hx with ⟨c, rfl⟩ | ⟨c, rfl⟩
  · exact eq_send_of_op (heo.trans hyo.symm)
  · exact eq_recv_of_op (heo.trans hyo.symm)

/-- A run in which role `r` aborts before barrier `b` and the other role
succeeds can get into a state where nothing can move any more, with the main
goroutine at the receive of the missing arrival and the other role at
`b.otherWaitsAt r`. -/
theorem abandoned_reaches {sc : Scenario} {pg : Driver} {b : Barrier} {r : Tid}
    {fl fw : Fate} (hr : r = .looser ∨ r = .winner) (hf : sysFate pg = .launched fl fw)
    (hab : b.abortedBy sc (fateAt fl fw r) = true)
    (hpass : b.passedBy sc (fateAt fl fw r.other) = true) :
    ∃ s, Reachable (Sys.init (sc.run pg)) s ∧ s.stuck = true ∧ s.crashed = false ∧
      (s.todo .main).head? = some (.recv (b.arrive r)) ∧
      (s.todo r.other).head? = some (b.otherWaitsAt r) := by
  have hd := abandoned_fact abandoned_protocol_deadlock hr hab hpass
  rw [← hf] at hd
  simp only [Bool.and_eq_true, decide_eq_true_eq, Bool.not_eq_true'] at hd
  rcases hd with ⟨⟨⟨h1, h2⟩, h3⟩, h4⟩
  rcases lift_reachable (sim_init sc pg) (reachable_runGreedy 64 Reachable.start)
    with ⟨s, hrs, hs⟩
  rcases settle hrs hs (hs.crashed.trans h2) with ⟨s2, r2, m2, c2, d2⟩
  refine ⟨s2, r2, stuck_of_sim m2 d2 h1, c2, head_of_sim m2 (d2 .main) (Or.inr ⟨_, rfl⟩) h3,
    head_of_sim m2 (d2 r.other) ?_ h4⟩
  rcases hr with rfl | rfl
  · exact Or.inl ⟨_, rfl⟩
  · exact Or.inr ⟨_, rfl⟩

/-- When the looser never arrives at barrier `b`, the winner never gets to
wait for the release of `b`: its own arrival comes first in its code, and it
never gets through it. -/
theorem winner_never_at_release {sc : Scenario} {pg : Driver} {b : Barrier}
    {fl fw : Fate} (hf : sysFate pg = .launched fl fw)
    (hab : b.abortedBy sc (fateAt fl fw .looser) = true)
    (hpass : b.passedBy sc (fateAt fl fw (Tid.other .looser)) = true)
    {s : Sys} (h : Reachable (Sys.init (sc.run pg)) s) :
    (s.todo .winner).head? ≠ some (.recv b.release) := by
  intro hh
  rcases hto : s.todo .winner with _ | ⟨e, rest⟩
  · simp [hto] at hh
  have he : e = .recv b.release := by simpa [hto] using hh
  subst he
  have hg := run_abandoned
    (p := fun b _ sh => gated (.send (b.arrive .winner)) (.recv b.release) (sh .winner))
    (by decide) (Or.inl rfl) hf hab hpass h
  obtain ⟨x, hx, hm⟩ := gate_todo (run_inv h).1 hto rfl hg
  rw [eq_send_of_op hx] at hm
  exact (abandoned_never (Or.inl rfl) hf hab hpass h).2.1 hm

/-- Claim C9, amended. In a run of any scenario in which both roles are
started, let role `r` abort before it arrives at barrier `b` (the ready barrier
released by `proceedSignal`, or the write-done barrier released by
`commitSignal`) because `Begin` or a statement of the phase before `b` fails,
while the other role succeeds in that phase. Then the run can get into a state
in which no goroutine can move, the process has not crashed, the main goroutine
is at the receive of the arrival of `r`, and the other role is at
`b.otherWaitsAt r`: at the receive from the release channel when `r` is the
winner, but at the send of its own arrival when `r` is the looser, whose
arrival the main goroutine receives first. And in no state of the run has
anybody received the arrival of `r`, has the other role got through that
operation, is the release channel closed, or has `Do` returned; when `r` is
the looser, the winner is never at the receive from the release channel. -/
theorem abandoned_barrier_blocks_forever (sc : Scenario) (pg : Driver) (b : Barrier) (r : Tid)
    (fl fw : Fate) (hr : r = .looser ∨ r = .winner) (hf : sysFate pg = .launched fl fw)
    (hab : b.abortedBy sc (fateAt fl fw r) = true)
    (hpass : b.passedBy sc (fateAt fl fw r.other) = true) :
    (∃ s, Reachable (Sys.init (sc.run pg)) s ∧ s.stuck = true ∧ s.crashed = false ∧
      (s.todo .main).head? = some (.recv (b.arrive r)) ∧
      (s.todo r.other).head? = some (b.otherWaitsAt r)) ∧
    ∀ s, Reachable (Sys.init (sc.run pg)) s →
      (∀ u, (u, Event.recv (b.arrive r)) ∉ s.hist) ∧
      (r.other, b.otherWaitsAt r) ∉ s.hist ∧
      s.closed b.release = false ∧
      (∀ u, (u, Event.close b.release) ∉ s.hist) ∧
      (∀ u f, (u, Event.ret f) ∉ s.hist) ∧
      (r = .looser → (s.todo .winner).head? ≠ some (.recv b.release)) := by
  refine ⟨abandoned_reaches hr hf hab hpass, fun s h => ?_⟩
  have hn := abandoned_never hr hf hab hpass h
  refine ⟨hn.1, hn.2.1, hn.2.2.1, hn.2.2.2.1, hn.2.2.2.2, fun hl => ?_⟩
  subst hl
  exact winner_never_at_release hf hab hpass h

/-- Witness for C9: the `DirtyRead` run in which the first read of the looser
fails and every call of the winner succeeds, at the ready barrier. -/
theorem abandoned_barrier_blocks_forever_witness :
    sysFate looserReadFailsDriver = .launched (.stmtFails .first) .completes ∧
    Barrier.ready.abortedBy .dirtyRead (.stmtFails .first) = true ∧
    Barrier.ready.passedBy .dirtyRead .completes = true ∧
    (∃ s, Reachable (Sys.init (Scenario.run .dirtyRead looserReadFailsDriver)) s ∧
      s.stuck = true ∧ s.crashed = false ∧
      (s.todo .main).head? = some (.recv .looserReady) ∧
      (s.todo .winner).head? = some (.send .winnerReady)) ∧
    ∀ s, Reachable (Sys.init (Scenario.run .dirtyRead looserReadFailsDriver)) s →
      s.closed .proceedSignal = false ∧ ∀ u f, (u, Event.ret f) ∉ s.hist :=
  have h := abandoned_barrier_blocks_forever .dirtyRead looserReadFailsDriver .ready .looser
    (.stmtFails .first) .completes (Or.inl rfl) (by decide) (by decide) (by decide)
  ⟨by decide, by decide, by decide, h.1, fun s hs => ⟨(h.2 s hs).2.2.1, (h.2 s hs).2.2.2.2.1⟩⟩

/-- Counterexample to C9 as stated: in the `DirtyRead` run in which the first
read of the looser fails and every call of the winner succeeds, the schedule
`looserReadFailsSchedule` ends in a state where nothing can move, with the main
goroutine at the receive from `looserReady` and the winner at the send on
`winnerReady`; and in no state of the run is the winner waiting on
`proceedSignal`. -/
theorem winner_blocks_on_its_ready_send_not_on_proceed_signal :
    ((Sys.init (Scenario.run .dirtyRead looserReadFailsDriver)).exec looserReadFailsSchedule).map
        (fun s => (s.stuck, (s.todo .main).head?, (s.todo .winner).head?))
      = some (true, some (.recv .looserReady), some (.send .winnerReady)) ∧
    ¬ ∃ s, Reachable (Sys.init (Scenario.run .dirtyRead looserReadFailsDriver)) s ∧
      (s.todo .winner).head? = some (.recv .proceedSignal) :=
  ⟨by decide, fun ⟨_, hs, hh⟩ =>
    @winner_never_at_release .dirtyRead looserReadFailsDriver .ready (.stmtFails .first)
      .completes (by decide) (by decide) (by decide) _ hs hh⟩

end PgSSI
